import Mathlib

/-!
# Verification of the signal-tty conversation/message state engine

A shallow embedding, in Lean 4, of the core state engine of the
`signal-tty` terminal chat client: the per-conversation message window
(`ConversationView`), the ingestion/reconciliation path
(`App::handle_incoming_message`), the selection model, the input-line
cursor (`InputState`), the layout/scroll resolution of the timeline
renderer (`ui::messages::render`), and the image pipeline's display-size
and cache-draining logic (`image_cache.rs`).

Conventions of the embedding:
* Rust `usize`/`u32`/`u16` values are modelled as `Nat`; explicit
  `% 2 ^ 16` appears where the source performs an `as u16` truncating
  cast on a value that may exceed the type's range.  `i64` is `Int`.
* Rust `String` text is modelled as its sequence of Unicode scalar
  values (`List Char`) where byte-level cursor arithmetic matters
  (`InputState`), and as Lean `String` elsewhere; `str::len` (a byte
  count) is `strByteLen`.
* The SQLite store is modelled as an in-memory `Store` whose operations
  mirror the SQL statements of `storage/sqlite/mod.rs`; `uuid::Uuid::new_v4`
  is modelled by a fresh-name supply (`uuid_counter`), and the wall clock
  `now_millis` by an explicit `now` field.  Store calls that the source
  treats as fallible (`Result`) are modelled through `Option`-returning
  fetch functions where the caller handles the error case.
* `f64` arithmetic in `calculate_display_size` is modelled by exact
  rational arithmetic (`ℚ`), with `as u16` on a nonnegative value
  modelled as `Int.toNat ∘ Rat.floor`.
-/

namespace SignalTty

/-! ## Data model (`storage/models.rs`) -/

/-- `storage::models::ConversationType`. -/
inductive ConversationType where
  | direct
  | group
deriving DecidableEq, Repr

/-- `storage::models::AttachmentInfo`. -/
structure AttachmentInfo where
  id : Option String
  content_type : Option String
  filename : Option String
  size : Option Nat
  local_path : Option String
deriving DecidableEq, Repr

/-- `storage::models::MessageContent`. -/
inductive MessageContent where
  | text (body : String)
  | attachment (attachments : List AttachmentInfo)
  | sticker (pack_id : String) (sticker_id : Int)
  | remoteDeleted
deriving DecidableEq, Repr

/-- `storage::models::Message` (the `quote` field, unused by the engine
paths verified here, is omitted). -/
structure Message where
  id : String
  conversation_id : String
  sender_uuid : String
  sender_name : Option String
  timestamp : Int
  server_timestamp : Option Int
  received_at : Int
  content : MessageContent
  is_outgoing : Bool
  is_read : Bool
  is_deleted : Bool
  is_edited : Bool
deriving DecidableEq, Repr

/-- `storage::models::Conversation`. -/
structure Conversation where
  id : String
  conversation_type : ConversationType
  recipient_uuid : Option String
  recipient_number : Option String
  recipient_name : Option String
  group_id : Option String
  group_name : Option String
  last_message_timestamp : Option Int
  unread_count : Nat
  is_archived : Bool
  is_muted : Bool
deriving DecidableEq, Repr

/-! ## Input line editor (`app.rs`, `InputState`)

The Rust `InputState` holds a UTF-8 `String` and a byte-offset cursor.
We model the string as its list of scalar values and keep the cursor as
a byte offset.  Every operation that slices or indexes the string at the
cursor (`String::insert`, `String::remove`, `&self.text[..self.cursor]`,
`&self.text[self.cursor..]`) panics in Rust when the offset is not a
character boundary; those panic points are modelled by `Option.none`. -/

/-- `char::len_utf8` — the UTF-8 encoded length of a scalar value. -/
def utf8Len (c : Char) : Nat :=
  if c.val < 0x80 then 1
  else if c.val < 0x800 then 2
  else if c.val < 0x10000 then 3
  else 4

/-- `str::len` of a character sequence: total UTF-8 byte count. -/
def byteSize (l : List Char) : Nat := (l.map utf8Len).sum

/-- Split a character sequence at a byte offset.  `none` when the offset
falls strictly inside the encoding of a character or past the end of the
string — the situations where the corresponding Rust slicing panics. -/
def splitAtByte : List Char → Nat → Option (List Char × List Char)
  | l, 0 => some ([], l)
  | [], _ + 1 => none
  | c :: cs, n + 1 =>
    if utf8Len c ≤ n + 1 then
      (splitAtByte cs (n + 1 - utf8Len c)).map (fun p => (c :: p.1, p.2))
    else none

/-- `app::InputState`: the text (as scalar values) and the byte cursor. -/
structure InputState where
  text : List Char
  cursor : Nat
deriving DecidableEq, Repr

/-- `InputState::insert`: insert at the cursor's byte offset, advance by
the character's encoded length. -/
def InputState.insert (s : InputState) (c : Char) : Option InputState :=
  (splitAtByte s.text s.cursor).map fun p =>
    { text := p.1 ++ c :: p.2, cursor := s.cursor + utf8Len c }

/-- `InputState::delete_back`: remove the character ending at the cursor
(found through `char_indices().last()` on the prefix slice). -/
def InputState.delete_back (s : InputState) : Option InputState :=
  if s.cursor = 0 then some s
  else
    (splitAtByte s.text s.cursor).bind fun p =>
      match p.1.reverse with
      | [] => none
      | c :: rest => some { text := rest.reverse ++ p.2, cursor := s.cursor - utf8Len c }

/-- `InputState::delete_forward`: remove the character starting at the
cursor when the cursor is not at the end. -/
def InputState.delete_forward (s : InputState) : Option InputState :=
  if s.cursor < byteSize s.text then
    (splitAtByte s.text s.cursor).bind fun p =>
      match p.2 with
      | [] => none
      | _ :: post => some { text := p.1 ++ post, cursor := s.cursor }
  else some s

/-- `InputState::move_left`: step to the byte offset of the previous
character. -/
def InputState.move_left (s : InputState) : Option InputState :=
  if s.cursor = 0 then some s
  else
    (splitAtByte s.text s.cursor).bind fun p =>
      match p.1.reverse with
      | [] => none
      | c :: _ => some { text := s.text, cursor := s.cursor - utf8Len c }

/-- `InputState::move_right`: step past the character starting at the
cursor (`char_indices().nth(1)`, falling back to the total length — both
equal the cursor plus the current character's encoded length). -/
def InputState.move_right (s : InputState) : Option InputState :=
  if s.cursor < byteSize s.text then
    (splitAtByte s.text s.cursor).bind fun p =>
      match p.2 with
      | [] => none
      | c :: _ => some { text := s.text, cursor := s.cursor + utf8Len c }
  else some s

/-- `InputState::move_start`. -/
def InputState.move_start (s : InputState) : Option InputState :=
  some { text := s.text, cursor := 0 }

/-- `InputState::move_end`. -/
def InputState.move_end (s : InputState) : Option InputState :=
  some { text := s.text, cursor := byteSize s.text }

/-- The cursor operations of `InputState` exercised by the key handler. -/
inductive EditOp where
  | insert (c : Char)
  | delete_back
  | delete_forward
  | move_left
  | move_right
  | move_start
  | move_end
deriving DecidableEq, Repr

/-- Apply one cursor operation. -/
def applyEditOp (op : EditOp) (s : InputState) : Option InputState :=
  match op with
  | .insert c => s.insert c
  | .delete_back => s.delete_back
  | .delete_forward => s.delete_forward
  | .move_left => s.move_left
  | .move_right => s.move_right
  | .move_start => s.move_start
  | .move_end => s.move_end

/-- Apply a sequence of cursor operations; `none` as soon as one of them
hits a Rust panic point. -/
def runEditOps : List EditOp → InputState → Option InputState
  | [], s => some s
  | op :: ops, s => (applyEditOp op s).bind (runEditOps ops)

/-- The cursor sits on a character boundary: it is the byte size of some
prefix of the text. -/
def OnBoundary (s : InputState) : Prop :=
  ∃ k, k ≤ s.text.length ∧ s.cursor = byteSize (s.text.take k)

instance (s : InputState) : Decidable (OnBoundary s) :=
  decidable_of_iff
      ((List.range (s.text.length + 1)).any fun k => s.cursor == byteSize (s.text.take k)) <| by
    simp only [List.any_eq_true, List.mem_range, beq_iff_eq, OnBoundary, Nat.lt_succ_iff]

theorem utf8Len_pos (c : Char) : 1 ≤ utf8Len c := by
  unfold utf8Len
  split <;> [skip; split] <;> [simp; skip; split] <;> simp

@[simp] theorem byteSize_nil : byteSize [] = 0 := rfl

@[simp] theorem byteSize_cons (c : Char) (l : List Char) :
    byteSize (c :: l) = utf8Len c + byteSize l := rfl

@[simp] theorem byteSize_append (a b : List Char) :
    byteSize (a ++ b) = byteSize a + byteSize b := by
  simp [byteSize]

@[simp] theorem splitAtByte_zero (l : List Char) : splitAtByte l 0 = some ([], l) := by
  cases l <;> rfl

theorem splitAtByte_cons_pos (c : Char) (cs : List Char) (m : Nat) (hm : 0 < m)
    (hc : utf8Len c ≤ m) :
    splitAtByte (c :: cs) m = (splitAtByte cs (m - utf8Len c)).map (fun p => (c :: p.1, p.2)) := by
  cases m with
  | zero => omega
  | succ n => rw [splitAtByte, if_pos hc]

theorem splitAtByte_prefix (pre post : List Char) :
    splitAtByte (pre ++ post) (byteSize pre) = some (pre, post) := by
  induction pre with
  | nil => simp
  | cons c cs ih =>
    have hpos : 0 < byteSize (c :: cs) := lt_of_lt_of_le (utf8Len_pos c) (by simp)
    rw [List.cons_append, splitAtByte_cons_pos c (cs ++ post) _ hpos (by simp),
      byteSize_cons, Nat.add_sub_cancel_left, ih]
    rfl

/-- A cursor is on a boundary exactly when it is the byte size of a prefix. -/
theorem onBoundary_iff (s : InputState) :
    OnBoundary s ↔ ∃ p, p <+: s.text ∧ s.cursor = byteSize p := by
  constructor
  · rintro ⟨k, _, h⟩
    exact ⟨s.text.take k, List.take_prefix k s.text, h⟩
  · rintro ⟨p, hp, h⟩
    refine ⟨p.length, hp.length_le, ?_⟩
    rwa [List.prefix_iff_eq_take.mp hp] at h

theorem onBoundary_of_prefix {t p : List Char} (hp : p <+: t) :
    OnBoundary ⟨t, byteSize p⟩ :=
  (onBoundary_iff _).mpr ⟨p, hp, rfl⟩

/-- On a boundary, `splitAtByte` succeeds and returns the exact split. -/
theorem splitAtByte_of_onBoundary {s : InputState} (h : OnBoundary s) :
    ∃ pre post, splitAtByte s.text s.cursor = some (pre, post) ∧
      s.text = pre ++ post ∧ byteSize pre = s.cursor := by
  obtain ⟨p, hp, hc⟩ := (onBoundary_iff s).mp h
  obtain ⟨post, hpost⟩ := hp
  exact ⟨p, post, by rw [hc, ← hpost, splitAtByte_prefix], hpost.symm, hc.symm⟩

theorem insert_preserves (s : InputState) (c : Char) (h : OnBoundary s) :
    ∃ s', s.insert c = some s' ∧ OnBoundary s' := by
  obtain ⟨pre, post, hsplit, htext, hpre⟩ := splitAtByte_of_onBoundary h
  refine ⟨_, by rw [InputState.insert, hsplit]; rfl, ?_⟩
  have : s.cursor + utf8Len c = byteSize (pre ++ [c]) := by simp [← hpre]
  rw [this]
  exact onBoundary_of_prefix (by simp)

theorem delete_back_preserves (s : InputState) (h : OnBoundary s) :
    ∃ s', s.delete_back = some s' ∧ OnBoundary s' := by
  rw [InputState.delete_back]
  by_cases h0 : s.cursor = 0
  · exact ⟨s, by rw [if_pos h0], h⟩
  obtain ⟨pre, post, hsplit, htext, hpre⟩ := splitAtByte_of_onBoundary h
  have hpre_ne : pre ≠ [] := by
    rintro rfl
    exact h0 (by simpa using hpre.symm)
  obtain ⟨c, rest, hrev⟩ : ∃ c rest, pre.reverse = c :: rest := by
    cases hr : pre.reverse with
    | nil => exact absurd (by simpa using congrArg List.reverse hr) hpre_ne
    | cons c rest => exact ⟨c, rest, rfl⟩
  have hpre_eq : pre = rest.reverse ++ [c] := by
    have := congrArg List.reverse hrev
    simpa using this
  refine ⟨_, by rw [if_neg h0, hsplit, Option.some_bind, hrev], ?_⟩
  have hsz : s.cursor - utf8Len c = byteSize rest.reverse := by
    rw [← hpre, hpre_eq]
    simp
  rw [hsz]
  exact onBoundary_of_prefix (List.prefix_append _ _)

theorem delete_forward_preserves (s : InputState) (h : OnBoundary s) :
    ∃ s', s.delete_forward = some s' ∧ OnBoundary s' := by
  rw [InputState.delete_forward]
  by_cases hlt : s.cursor < byteSize s.text
  · obtain ⟨pre, post, hsplit, htext, hpre⟩ := splitAtByte_of_onBoundary h
    obtain ⟨c, post', rfl⟩ : ∃ c post', post = c :: post' := by
      cases post with
      | nil => exact absurd hlt (by simp [htext, hpre])
      | cons c post' => exact ⟨c, post', rfl⟩
    refine ⟨_, by rw [if_pos hlt, hsplit, Option.some_bind], ?_⟩
    rw [← hpre]
    exact onBoundary_of_prefix (List.prefix_append _ _)
  · exact ⟨s, by rw [if_neg hlt], h⟩

theorem move_left_preserves (s : InputState) (h : OnBoundary s) :
    ∃ s', s.move_left = some s' ∧ OnBoundary s' := by
  rw [InputState.move_left]
  by_cases h0 : s.cursor = 0
  · exact ⟨s, by rw [if_pos h0], h⟩
  obtain ⟨pre, post, hsplit, htext, hpre⟩ := splitAtByte_of_onBoundary h
  have hpre_ne : pre ≠ [] := by
    rintro rfl
    exact h0 (by simpa using hpre.symm)
  obtain ⟨c, rest, hrev⟩ : ∃ c rest, pre.reverse = c :: rest := by
    cases hr : pre.reverse with
    | nil => exact absurd (by simpa using congrArg List.reverse hr) hpre_ne
    | cons c rest => exact ⟨c, rest, rfl⟩
  have hpre_eq : pre = rest.reverse ++ [c] := by
    have := congrArg List.reverse hrev
    simpa using this
  refine ⟨_, by rw [if_neg h0, hsplit, Option.some_bind, hrev], ?_⟩
  have hsz : s.cursor - utf8Len c = byteSize rest.reverse := by
    rw [← hpre, hpre_eq]
    simp
  rw [hsz]
  exact onBoundary_of_prefix ⟨[c] ++ post, by rw [htext, hpre_eq]; simp⟩

theorem move_right_preserves (s : InputState) (h : OnBoundary s) :
    ∃ s', s.move_right = some s' ∧ OnBoundary s' := by
  rw [InputState.move_right]
  by_cases hlt : s.cursor < byteSize s.text
  · obtain ⟨pre, post, hsplit, htext, hpre⟩ := splitAtByte_of_onBoundary h
    obtain ⟨c, post', rfl⟩ : ∃ c post', post = c :: post' := by
      cases post with
      | nil => exact absurd hlt (by simp [htext, hpre])
      | cons c post' => exact ⟨c, post', rfl⟩
    refine ⟨_, by rw [if_pos hlt, hsplit, Option.some_bind], ?_⟩
    have hsz : s.cursor + utf8Len c = byteSize (pre ++ [c]) := by simp [← hpre]
    rw [hsz]
    exact onBoundary_of_prefix ⟨post', by rw [htext]; simp⟩
  · exact ⟨s, by rw [if_neg hlt], h⟩

theorem applyEditOp_preserves (op : EditOp) (s : InputState) (h : OnBoundary s) :
    ∃ s', applyEditOp op s = some s' ∧ OnBoundary s' := by
  cases op with
  | insert c => exact insert_preserves s c h
  | delete_back => exact delete_back_preserves s h
  | delete_forward => exact delete_forward_preserves s h
  | move_left => exact move_left_preserves s h
  | move_right => exact move_right_preserves s h
  | move_start => exact ⟨_, rfl, onBoundary_of_prefix List.nil_prefix⟩
  | move_end => exact ⟨_, rfl, onBoundary_of_prefix (List.prefix_refl _)⟩

theorem cursor_le_of_onBoundary {s : InputState} (h : OnBoundary s) :
    s.cursor ≤ byteSize s.text := by
  obtain ⟨p, hp, hc⟩ := (onBoundary_iff s).mp h
  obtain ⟨post, hpost⟩ := hp
  rw [hc, ← hpost]
  simp

/-! ## Conversation view (`app.rs`)

`ConversationView` methods take the store as a collaborator
(`&SqliteStorage`); here the paging calls are abstracted as a fetch
function `String → Nat → Option Int → Option (List Message)` mirroring
`StorageRepository::list_messages` (`none` models a `Result::Err`). -/

/-- A fetch function standing for `SqliteStorage::list_messages`:
conversation id, limit, optional exclusive upper timestamp bound. -/
def FetchFn : Type := String → Nat → Option Int → Option (List Message)

/-- `app::MessageSelection`. -/
structure MessageSelection where
  anchor : Nat
  cursor : Nat
deriving DecidableEq, Repr

/-- `MessageSelection::range` as an inclusive pair of endpoints. -/
def MessageSelection.lo (s : MessageSelection) : Nat := min s.anchor s.cursor

/-- Upper endpoint of `MessageSelection::range`. -/
def MessageSelection.hi (s : MessageSelection) : Nat := max s.anchor s.cursor

/-- `SCROLL_LINES` (`app.rs`). -/
def SCROLL_LINES : Nat := 3

/-- `app::ConversationView`. -/
structure ConversationView where
  conversation : Conversation
  messages : Option (List Message)
  scroll_offset : Nat
  has_more_messages : Bool
  selection : Option MessageSelection
  visible_range : Option (Nat × Nat)
  last_message_preview : Option Message
deriving DecidableEq, Repr

/-- `ConversationView::new`: fresh view with the newest stored message as
the list preview. -/
def ConversationView.new (fetch : FetchFn) (conversation : Conversation) : ConversationView :=
  { conversation := conversation
    messages := none
    scroll_offset := 0
    has_more_messages := true
    selection := none
    visible_range := none
    last_message_preview := (fetch conversation.id 1 none).bind List.head? }

/-- `ConversationView::load_messages`: initial page of up to 100 newest
messages; returns whether data changed. -/
def ConversationView.load_messages (v : ConversationView) (fetch : FetchFn) :
    ConversationView × Bool :=
  if v.messages.isNone then
    match fetch v.conversation.id 100 none with
    | some msgs =>
      ({ v with
          has_more_messages := 100 ≤ msgs.length
          messages := some msgs
          scroll_offset := 0 }, true)
    | none => (v, false)
  else (v, false)

/-- Image paths of the attachments of one message
(the repeated inner loop of `collect_image_paths` /
`load_older_messages`): image-typed attachments with a local path. -/
def messageImagePaths (m : Message) : List String :=
  match m.content with
  | .attachment attachments =>
    attachments.foldr
      (fun att acc =>
        if (att.content_type.map (String.startsWith · "image/")).getD false then
          match att.local_path with
          | some path => path :: acc
          | none => acc
        else acc)
      []
  | _ => []

/-- `ConversationView::load_older_messages`: backward page strictly older
than the oldest loaded message, prepended; returns the image paths of the
newly loaded page. -/
def ConversationView.load_older_messages (v : ConversationView) (fetch : FetchFn) :
    ConversationView × List String :=
  if !v.has_more_messages then (v, [])
  else
    match v.messages.bind List.head? |>.map Message.timestamp with
    | some before_ts =>
      match fetch v.conversation.id 100 (some before_ts) with
      | some older_msgs =>
        if older_msgs.isEmpty then ({ v with has_more_messages := false }, [])
        else
          let v := { v with has_more_messages := 100 ≤ older_msgs.length }
          let paths := (older_msgs.map messageImagePaths).flatten
          match v.messages with
          | some msgs => ({ v with messages := some (older_msgs ++ msgs) }, paths)
          | none => (v, [])
      | none => (v, [])
    | none => (v, [])

/-- `ConversationView::scroll_to_bottom`. -/
def ConversationView.scroll_to_bottom (v : ConversationView) : ConversationView :=
  { v with scroll_offset := 0 }

/-- `ConversationView::add_message`: update the preview, and when the
history is paged in, append and snap to the bottom. -/
def ConversationView.add_message (v : ConversationView) (message : Message) : ConversationView :=
  let v := { v with last_message_preview := some message }
  match v.messages with
  | some msgs => { v with messages := some (msgs ++ [message]), scroll_offset := 0 }
  | none => v

/-- `ConversationView::enter_selection_mode`: anchor and cursor start at
the centre of the last published visible range, or at the last index. -/
def ConversationView.enter_selection_mode (v : ConversationView) : ConversationView :=
  match v.messages with
  | some msgs =>
    if msgs.isEmpty then v
    else
      let center_idx :=
        match v.visible_range with
        | some r => (r.1 + r.2) / 2
        | none => msgs.length - 1
      { v with selection := some { anchor := center_idx, cursor := center_idx } }
  | none => v

/-- `ConversationView::exit_selection_mode`. -/
def ConversationView.exit_selection_mode (v : ConversationView) : ConversationView :=
  { v with selection := none }

/-- `ConversationView::move_selection`: move the cursor one step, clamped
to the loaded range; without `extend` the anchor snaps to the cursor. -/
def ConversationView.move_selection (v : ConversationView) (direction : Int) (extend : Bool) :
    ConversationView :=
  let msg_count := (v.messages.map List.length).getD 0
  if msg_count = 0 then v
  else
    match v.selection with
    | none => v
    | some sel =>
      let new_cursor := if direction < 0 then sel.cursor - 1 else min (sel.cursor + 1) (msg_count - 1)
      { v with
          selection := some { anchor := if extend then sel.anchor else new_cursor
                              cursor := new_cursor } }

/-- `ConversationView::shrink_selection`: step the cursor one index back
toward the anchor. -/
def ConversationView.shrink_selection (v : ConversationView) : ConversationView :=
  match v.selection with
  | none => v
  | some sel =>
    if sel.anchor < sel.cursor then
      { v with selection := some { anchor := sel.anchor, cursor := sel.cursor - 1 } }
    else if sel.cursor < sel.anchor then
      { v with selection := some { anchor := sel.anchor, cursor := sel.cursor + 1 } }
    else v

/-- `ConversationView::delete_selected_messages`: drop the selected index
range from the loaded list, clear the selection, return the removed ids. -/
def ConversationView.delete_selected_messages (v : ConversationView) :
    ConversationView × List String :=
  match v.selection with
  | none => (v, [])
  | some sel =>
    match v.messages with
    | none => (v, [])
    | some msgs =>
      let idxs := (List.range (sel.hi + 1 - sel.lo)).map (· + sel.lo)
      let ids := idxs.filterMap fun idx => (msgs.get? idx).map Message.id
      let remaining := idxs.reverse.foldl
        (fun ms idx => if idx < ms.length then ms.eraseIdx idx else ms) msgs
      ({ v with messages := some remaining, selection := none }, ids)

/-! ## Persistent store (`storage/sqlite/mod.rs`)

An in-memory model of the SQLite tables.  `uuid::Uuid::new_v4` is a
fresh-name supply threaded through the store. -/

/-- The store: the `conversations` and `messages` tables plus the
fresh-uuid supply. -/
structure Store where
  conversations : List Conversation
  messages : List Message
  uuid_counter : Nat
deriving DecidableEq, Repr

/-- Draw a fresh uuid (models `uuid::Uuid::new_v4().to_string()`). -/
def Store.fresh_uuid (st : Store) : String × Store :=
  ("uuid-" ++ toString st.uuid_counter, { st with uuid_counter := st.uuid_counter + 1 })

/-- `SqliteStorage::save_message`: `INSERT OR REPLACE` on the primary key
`id`, then the monotonic `MAX(COALESCE(last_message_timestamp, 0), ts)`
update of the owning conversation's watermark. -/
def Store.save_message (st : Store) (m : Message) : Store :=
  { st with
    messages := (st.messages.filter fun r => r.id ≠ m.id) ++ [m]
    conversations := st.conversations.map fun c =>
      if c.id = m.conversation_id then
        { c with
            last_message_timestamp :=
              some (max ((c.last_message_timestamp).getD 0) m.timestamp) }
      else c }

/-- `SqliteStorage::get_message_by_signal_id`: row with the given
`(sender_uuid, timestamp)` pair. -/
def Store.get_message_by_signal_id (st : Store) (sender_uuid : String) (timestamp : Int) :
    Option Message :=
  st.messages.find? fun m => m.sender_uuid == sender_uuid && m.timestamp == timestamp

/-- A stable comparator sort (`Vec::sort_by` / SQL `ORDER BY`): stable
insertion sort — each element is placed after every earlier element the
comparator does not order strictly after it. -/
def insertSorted (le : α → α → Bool) (x : α) : List α → List α
  | [] => [x]
  | y :: ys => if le y x then y :: insertSorted le x ys else x :: y :: ys

/-- Stable sort of a whole list by a boolean comparator. -/
def sortByStable (le : α → α → Bool) (l : List α) : List α :=
  l.foldl (fun acc x => insertSorted le x acc) []

/-- Descending `timestamp` comparator used by the message queries. -/
def tsDescLe (a b : Message) : Bool := b.timestamp ≤ a.timestamp

/-- `SqliteStorage::list_messages`: rows of the conversation (strictly
older than the cursor when given), newest first capped at `limit`,
returned in ascending order. -/
def Store.list_messages (st : Store) (conversation_id : String) (limit : Nat)
    (before_timestamp : Option Int) : List Message :=
  let rows := st.messages.filter fun m =>
    m.conversation_id == conversation_id &&
      match before_timestamp with
      | some ts => m.timestamp < ts
      | none => true
  (((sortByStable tsDescLe rows).take limit)).reverse

/-- The store exposed as the fetch collaborator the views receive
(`&SqliteStorage` in the source; this model's store never fails). -/
def Store.fetchFn (st : Store) : FetchFn :=
  fun conversation_id limit before => some (st.list_messages conversation_id limit before)

/-- `Option<i64>` ordering (`None < Some _`), as used by
`Vec::sort_by` on `last_message_timestamp`. -/
def optTsLe (a b : Option Int) : Bool :=
  match a, b with
  | none, _ => true
  | some _, none => false
  | some x, some y => x ≤ y

/-- `SqliteStorage::list_conversations`:
`ORDER BY last_message_timestamp DESC NULLS LAST`. -/
def Store.list_conversations (st : Store) : List Conversation :=
  sortByStable (fun a b => optTsLe b.last_message_timestamp a.last_message_timestamp)
    st.conversations

/-- `SqliteStorage::get_conversation_by_recipient`. -/
def Store.get_conversation_by_recipient (st : Store) (recipient_uuid : String) :
    Option Conversation :=
  st.conversations.find? fun c =>
    c.recipient_uuid == some recipient_uuid && c.conversation_type == .direct

/-- `SqliteStorage::get_conversation_by_group`. -/
def Store.get_conversation_by_group (st : Store) (group_id : String) : Option Conversation :=
  st.conversations.find? fun c =>
    c.group_id == some group_id && c.conversation_type == .group

/-- `SqliteStorage::update_conversation` (row update keyed by `id`). -/
def Store.update_conversation (st : Store) (conv : Conversation) : Store :=
  { st with conversations := st.conversations.map fun c => if c.id = conv.id then conv else c }

/-- `Conversation::new_direct` with an explicit fresh id. -/
def Conversation.new_direct (id recipient_uuid : String)
    (recipient_number recipient_name : Option String) : Conversation :=
  { id := id
    conversation_type := .direct
    recipient_uuid := some recipient_uuid
    recipient_number := recipient_number
    recipient_name := recipient_name
    group_id := none
    group_name := none
    last_message_timestamp := none
    unread_count := 0
    is_archived := false
    is_muted := false }

/-- `Conversation::new_group` with an explicit fresh id. -/
def Conversation.new_group (id group_id : String) (group_name : Option String) : Conversation :=
  { id := id
    conversation_type := .group
    recipient_uuid := none
    recipient_number := none
    recipient_name := none
    group_id := some group_id
    group_name := group_name
    last_message_timestamp := none
    unread_count := 0
    is_archived := false
    is_muted := false }

/-- `SqliteStorage::get_or_create_direct_conversation`. -/
def Store.get_or_create_direct_conversation (st : Store) (recipient_uuid : String)
    (recipient_number recipient_name : Option String) : Conversation × Store :=
  match st.get_conversation_by_recipient recipient_uuid with
  | some conv =>
    if recipient_name.isSome || recipient_number.isSome then
      let updated :=
        { conv with
            recipient_name := if recipient_name.isSome then recipient_name else conv.recipient_name
            recipient_number :=
              if recipient_number.isSome then recipient_number else conv.recipient_number }
      (updated, st.update_conversation updated)
    else (conv, st)
  | none =>
    let fr := st.fresh_uuid
    let conv := Conversation.new_direct fr.1 recipient_uuid recipient_number recipient_name
    (conv, { fr.2 with conversations := fr.2.conversations ++ [conv] })

/-- `SqliteStorage::get_or_create_group_conversation`. -/
def Store.get_or_create_group_conversation (st : Store) (group_id : String)
    (group_name : Option String) : Conversation × Store :=
  match st.get_conversation_by_group group_id with
  | some conv =>
    if group_name.isSome && conv.group_name ≠ group_name then
      let updated := { conv with group_name := group_name }
      (updated, st.update_conversation updated)
    else (conv, st)
  | none =>
    let fr := st.fresh_uuid
    let conv := Conversation.new_group fr.1 group_id group_name
    (conv, { fr.2 with conversations := fr.2.conversations ++ [conv] })

/-- `SqliteStorage::update_message_content`: rewrite the content and set
`is_edited` on every row with the given `(sender_uuid, timestamp)`. -/
def Store.update_message_content (st : Store) (sender_uuid : String) (timestamp : Int)
    (new_content : MessageContent) : Store :=
  { st with
    messages := st.messages.map fun m =>
      if m.sender_uuid = sender_uuid ∧ m.timestamp = timestamp then
        { m with content := new_content, is_edited := true }
      else m }

/-! ## Inbound protocol events (`infrastructure/signal/types.rs`) -/

/-- `infrastructure::signal::types::Attachment` (wire attachment). -/
structure WireAttachment where
  content_type : Option String
  filename : Option String
  id : Option String
  size : Option Int
deriving DecidableEq, Repr

/-- `infrastructure::signal::types::GroupInfo` (only `group_id` is read
by the engine). -/
structure GroupInfo where
  group_id : String
deriving DecidableEq, Repr

/-- `infrastructure::signal::types::DataMessage` (fields read by the
ingestion path). -/
structure DataMessage where
  timestamp : Option Int
  message : Option String
  group_info : Option GroupInfo
  attachments : List WireAttachment
deriving DecidableEq, Repr

/-- `infrastructure::signal::types::EditMessage`. -/
structure EditMessage where
  target_sent_timestamp : Int
  data_message : Option DataMessage
deriving DecidableEq, Repr

/-- `infrastructure::signal::types::SentMessage`. -/
structure SentMessage where
  destination : Option String
  destination_uuid : Option String
  timestamp : Option Int
  message : Option String
  group_info : Option GroupInfo
  attachments : List WireAttachment
  edit_message : Option EditMessage
deriving DecidableEq, Repr

/-- `infrastructure::signal::types::SyncMessage` (only `sent_message` is
read by the ingestion path). -/
structure SyncMessage where
  sent_message : Option SentMessage
deriving DecidableEq, Repr

/-- `infrastructure::signal::types::Envelope` (fields read by the
ingestion path). -/
structure Envelope where
  source : Option String
  source_uuid : Option String
  source_name : Option String
  timestamp : Option Int
  data_message : Option DataMessage
  sync_message : Option SyncMessage
  edit_message : Option EditMessage
deriving DecidableEq, Repr

/-- `infrastructure::IncomingMessage`. -/
structure IncomingMessage where
  envelope : Envelope
deriving DecidableEq, Repr

/-- `i64 as u64` (the `a.size.map(|s| s as u64)` cast). -/
def i64AsU64 (n : Int) : Nat := (n % (2 ^ 64 : Int)).toNat

/-- Conversion of a wire attachment into a stored `AttachmentInfo`
(both ingestion paths in `App::handle_incoming_message`; note
`local_path: a.id.clone()`). -/
def wireToAttachmentInfo (a : WireAttachment) : AttachmentInfo :=
  { id := a.id
    content_type := a.content_type
    filename := a.filename
    size := a.size.map i64AsU64
    local_path := a.id }

/-! ## The engine (`app.rs`, `App`) -/

/-- `app::App` — the fields the verified operations touch.  `now` models
the `now_millis()` wall clock. -/
structure App where
  storage : Store
  my_uuid : Option String
  my_number : Option String
  conversations : List ConversationView
  selected : Nat
  needs_image_preload : Bool
  pending_preload_paths : List String
  now : Int
deriving DecidableEq, Repr

/-- `App::load_conversations`: rebuild every view from the store, select
the first conversation that has a watermark, and page its messages in. -/
def App.load_conversations (a : App) : App :=
  let convs := a.storage.list_conversations
  let views := convs.map (ConversationView.new a.storage.fetchFn)
  let a := { a with conversations := views }
  match views.findIdx? (fun c => c.conversation.last_message_timestamp.isSome) with
  | some idx =>
    match a.conversations.get? idx with
    | some v =>
      let lr := v.load_messages a.storage.fetchFn
      { a with
          selected := idx
          conversations := a.conversations.set idx lr.1
          needs_image_preload := a.needs_image_preload || lr.2 }
    | none => { a with selected := idx }
  | none => a

/-- `App::sort_conversations`: stable sort descending by watermark,
restoring the selection by conversation id. -/
def App.sort_conversations (a : App) : App :=
  let selected_id := (a.conversations.get? a.selected).map fun c => c.conversation.id
  let sorted := sortByStable
    (fun x y => optTsLe y.conversation.last_message_timestamp x.conversation.last_message_timestamp)
    a.conversations
  let a := { a with conversations := sorted }
  match selected_id with
  | some id =>
    match a.conversations.findIdx? (fun c => c.conversation.id == id) with
    | some new_idx => { a with selected := new_idx }
    | none => a
  | none => a

/-- `App::add_message_to_conversation`: append into the owning view
(paging it in first when necessary), overwrite the watermark with the
message's timestamp, and re-sort; reload everything when the
conversation is unknown. -/
def App.add_message_to_conversation (a : App) (conversation_id : String) (message : Message) :
    App :=
  match a.conversations.findIdx? (fun c => c.conversation.id == conversation_id) with
  | some idx =>
    match a.conversations.get? idx with
    | some conv_view =>
      let timestamp := message.timestamp
      let conv_view :=
        if conv_view.messages.isNone then (conv_view.load_messages a.storage.fetchFn).1
        else conv_view
      let conv_view := conv_view.add_message message
      let conv_view :=
        { conv_view with
            conversation :=
              { conv_view.conversation with last_message_timestamp := some timestamp } }
      let a := { a with conversations := a.conversations.set idx conv_view }
      a.sort_conversations
    | none => a.load_conversations
  | none => a.load_conversations

/-- `App::scroll_messages_up`: bump the offset by `SCROLL_LINES`, then
prefetch a backward page when more history exists. -/
def App.scroll_messages_up (a : App) : App :=
  match a.conversations.get? a.selected with
  | some conv =>
    let conv := { conv with scroll_offset := conv.scroll_offset + SCROLL_LINES }
    if conv.has_more_messages then
      let lr := conv.load_older_messages a.storage.fetchFn
      { a with
          conversations := a.conversations.set a.selected lr.1
          pending_preload_paths := a.pending_preload_paths ++ lr.2 }
    else { a with conversations := a.conversations.set a.selected conv }
  | none => a

/-- `App::scroll_messages_down`: saturating decrement by `SCROLL_LINES`. -/
def App.scroll_messages_down (a : App) : App :=
  match a.conversations.get? a.selected with
  | some conv =>
    let conv := { conv with scroll_offset := conv.scroll_offset - SCROLL_LINES }
    { a with conversations := a.conversations.set a.selected conv }
  | none => a

/-- The in-memory half of `App::handle_edit_message`: walk the views and
rewrite the first loaded message hit (the Rust loop returns at the first
match). -/
def patchFirstLoaded (a : App) (sender_uuid : String) (target_timestamp : Int)
    (new_content : MessageContent) : App :=
  let hit := fun (m : Message) =>
    m.timestamp == target_timestamp && (m.sender_uuid == sender_uuid || m.sender_uuid == "")
  match a.conversations.findIdx?
      (fun v => (v.messages.map fun msgs => msgs.any hit).getD false) with
  | none => a
  | some vi =>
    match a.conversations.get? vi with
    | none => a
    | some v =>
      match v.messages with
      | none => a
      | some msgs =>
        match msgs.findIdx? hit with
        | none => a
        | some mi =>
          match msgs.get? mi with
          | none => a
          | some m =>
            let m := { m with content := new_content, is_edited := true }
            let v := { v with messages := some (msgs.set mi m) }
            { a with conversations := a.conversations.set vi v }

/-- `App::handle_edit_message`: persist the new content under both the
sender's uuid and a blank sender, then patch the first loaded message
matching the target timestamp whose sender matches or is blank. -/
def App.handle_edit_message (a : App) (sender_uuid : String) (edit : EditMessage) : App :=
  match edit.data_message with
  | none => a
  | some data =>
    let new_text := data.message.getD ""
    if new_text = "" then a
    else
      let new_content := MessageContent.text new_text
      let st := a.storage.update_message_content sender_uuid edit.target_sent_timestamp new_content
      let st := st.update_message_content "" edit.target_sent_timestamp new_content
      let a := { a with storage := st }
      patchFirstLoaded a sender_uuid edit.target_sent_timestamp new_content

/-- The body of the data-message branch of `App::handle_incoming_message`
(after the empty-payload early return): resolve or create the
conversation, build the `Message`, persist it, route it to the view. -/
def App.ingest_data (a : App) (source : Option String) (sender_uuid : String)
    (sender_name : Option String) (timestamp : Int) (data : DataMessage) (text : String) : App :=
  let is_outgoing := (a.my_uuid.map (fun u => u == sender_uuid)).getD false
  let cs :=
    match data.group_info with
    | some group => a.storage.get_or_create_group_conversation group.group_id none
    | none => a.storage.get_or_create_direct_conversation sender_uuid source sender_name
  let conv := cs.1
  let a := { a with storage := cs.2 }
  let content :=
    if !data.attachments.isEmpty then
      MessageContent.attachment (data.attachments.map wireToAttachmentInfo)
    else MessageContent.text text
  let fr := a.storage.fresh_uuid
  let a := { a with storage := fr.2 }
  let message : Message :=
    { id := fr.1
      conversation_id := conv.id
      sender_uuid := sender_uuid
      sender_name := sender_name
      timestamp := timestamp
      server_timestamp := none
      received_at := a.now
      content := content
      is_outgoing := is_outgoing
      is_read := is_outgoing
      is_deleted := false
      is_edited := false }
  let a := { a with storage := a.storage.save_message message }
  a.add_message_to_conversation conv.id message

/-- The tail of the sync-sent branch of `App::handle_incoming_message`
once the destination conversation has been resolved (`cs` is the
conversation returned by the store together with the store after the
`get_or_create` call): build the echoed `Message`
(`is_outgoing = is_read = true`), persist it, route it to the view. -/
def App.ingest_sync_resolved (a : App) (sender_uuid : String) (sender_name : Option String)
    (timestamp : Int) (sent : SentMessage) (text : String) (cs : Conversation × Store) : App :=
  let conv := cs.1
  let a := { a with storage := cs.2 }
  let content :=
    if !sent.attachments.isEmpty then
      MessageContent.attachment (sent.attachments.map wireToAttachmentInfo)
    else MessageContent.text text
  let fr := a.storage.fresh_uuid
  let a := { a with storage := fr.2 }
  let message : Message :=
    { id := fr.1
      conversation_id := conv.id
      sender_uuid := sender_uuid
      sender_name := sender_name
      timestamp := sent.timestamp.getD timestamp
      server_timestamp := none
      received_at := a.now
      content := content
      is_outgoing := true
      is_read := true
      is_deleted := false
      is_edited := false }
  let a := { a with storage := a.storage.save_message message }
  a.add_message_to_conversation conv.id message

/-- The body of the sync-sent branch of `App::handle_incoming_message`,
after the nested-edit, empty-payload and already-ingested early returns:
resolve the destination conversation (group id, destination uuid, or
destination number, in that order), then ingest the echo. -/
def App.ingest_sync_sent (a : App) (sender_uuid : String) (sender_name : Option String)
    (timestamp : Int) (sent : SentMessage) (text : String) : App :=
  let conversation :=
    match sent.group_info with
    | some group => some (a.storage.get_or_create_group_conversation group.group_id none)
    | none =>
      match sent.destination_uuid with
      | some dest => some (a.storage.get_or_create_direct_conversation dest sent.destination none)
      | none =>
        match sent.destination with
        | some dest => some (a.storage.get_or_create_direct_conversation dest (some dest) none)
        | none => none
  match conversation with
  | none => a
  | some cs => a.ingest_sync_resolved sender_uuid sender_name timestamp sent text cs

/-- The sync-message step of `App::handle_incoming_message` (the final
`if let` chain): nested edits are re-dispatched, empty payloads dropped,
and an echo whose `(sender_uuid, sent timestamp)` already exists in the
store is discarded before a `Message` is built. -/
def App.handle_sync (a : App) (sender_uuid : String) (sender_name : Option String)
    (timestamp : Int) (sync : SyncMessage) : App :=
  match sync.sent_message with
  | none => a
  | some sent =>
    match sent.edit_message with
    | some edit => a.handle_edit_message sender_uuid edit
    | none =>
      let text := sent.message.getD ""
      if text = "" ∧ sent.attachments.isEmpty then a
      else
        let sync_timestamp := sent.timestamp.getD timestamp
        if (a.storage.get_message_by_signal_id sender_uuid sync_timestamp).isSome then a
        else a.ingest_sync_sent sender_uuid sender_name timestamp sent text

/-- `App::handle_incoming_message`: dispatch one inbound envelope through
the data-message, edit-message and sync-message steps, honouring the
early `return`s of the source (missing sender; empty data payload). -/
def App.handle_incoming_message (a : App) (msg : IncomingMessage) : App :=
  let envelope := msg.envelope
  match envelope.source_uuid with
  | none => a
  | some sender_uuid =>
    let sender_name := envelope.source_name
    let timestamp := envelope.timestamp.getD a.now
    match envelope.data_message with
    | some data =>
      let text := data.message.getD ""
      if text = "" ∧ data.attachments.isEmpty then a
      else
        let a := a.ingest_data envelope.source sender_uuid sender_name timestamp data text
        let a :=
          match envelope.edit_message with
          | some edit => a.handle_edit_message sender_uuid edit
          | none => a
        match envelope.sync_message with
        | some sync => a.handle_sync sender_uuid sender_name timestamp sync
        | none => a
    | none =>
      let a :=
        match envelope.edit_message with
        | some edit => a.handle_edit_message sender_uuid edit
        | none => a
      match envelope.sync_message with
      | some sync => a.handle_sync sender_uuid sender_name timestamp sync
      | none => a

/-! ## Image pipeline (`image_cache.rs`) -/

/-- `MAX_IMAGE_WIDTH`. -/
def MAX_IMAGE_WIDTH : Nat := 60

/-- `MAX_IMAGE_HEIGHT`. -/
def MAX_IMAGE_HEIGHT : Nat := 20

/-- `MIN_IMAGE_HEIGHT`. -/
def MIN_IMAGE_HEIGHT : Nat := 4

/-- `image_cache::ImageState` (the `Loaded` payload keeps the decoded
pixel dimensions of `CachedImage`; the terminal protocol handle is not
modelled). -/
inductive ImageState where
  | loading
  | loaded (width height : Nat)
  | failed
deriving DecidableEq, Repr

/-- The path-keyed cache (`HashMap<String, ImageState>`), as an
association list with insert-replaces-key semantics. -/
def ImageCacheMap : Type := List (String × ImageState)

/-- `HashMap::insert`. -/
def cacheInsert (cache : ImageCacheMap) (path : String) (st : ImageState) : ImageCacheMap :=
  (path, st) :: (cache.filter fun p => p.1 ≠ path)

/-- `HashMap::get`. -/
def cacheGet (cache : ImageCacheMap) (path : String) : Option ImageState :=
  (cache.find? fun p => p.1 == path).map Prod.snd

/-- A successfully decoded worker result (`LoadedImageData`; the decoded
bitmap itself is not modelled, its pixel dimensions are). -/
structure LoadedImageData where
  path : String
  width : Nat
  height : Nat
deriving DecidableEq, Repr

/-- `ImageCache::process_pending`: drain the result queue; a `Some`
result is installed as `Loaded`, a `None` result (failed read/decode in
`load_image_data`) is skipped. Returns the cache and the
`any_loaded` flag. -/
def process_pending (results : List (Option LoadedImageData)) (cache : ImageCacheMap) :
    ImageCacheMap × Bool :=
  results.foldl
    (fun acc result =>
      match result with
      | some data => (cacheInsert acc.1 data.path (.loaded data.width data.height), true)
      | none => acc)
    (cache, false)

/-- `ImageCache::start_loading`, given a file-existence oracle for the
resolved path: a missing file is installed as `Failed` immediately;
otherwise the path is marked `Loading` and queued for the worker.
Returns the cache and the queued request, if any. -/
def start_loading (fileExists : String → Bool) (cache : ImageCacheMap) (path : String) :
    ImageCacheMap × Option String :=
  if !fileExists path then (cacheInsert cache path .failed, none)
  else (cacheInsert cache path .loading, some path)

/-- `load_image_data`, given a decode oracle yielding the pixel
dimensions, or `none` on any read/decode failure: the worker's result
for one request. -/
def load_image_data (decode : String → Option (Nat × Nat)) (path : String) :
    Option LoadedImageData :=
  (decode path).map fun d => { path := path, width := d.1, height := d.2 }

/-- `calculate_display_size` (`f64` arithmetic modelled by exact
rationals; `as u16` on the nonnegative intermediate values is
`Int.toNat ∘ Rat.floor`). -/
def calculate_display_size (img_width img_height max_width : Nat) : Nat × Nat :=
  if img_width = 0 ∨ img_height = 0 then (max_width, MIN_IMAGE_HEIGHT)
  else
    let aspect_ratio : ℚ := (img_width : ℚ) / (img_height : ℚ)
    let cell_aspect : ℚ := 2
    let adjusted_ratio := aspect_ratio * cell_aspect
    let display_width := min max_width MAX_IMAGE_WIDTH
    let display_height := ((display_width : ℚ) / adjusted_ratio).floor.toNat
    let display_height := min (max display_height MIN_IMAGE_HEIGHT) MAX_IMAGE_HEIGHT
    let display_width :=
      if display_height = MAX_IMAGE_HEIGHT ∨ display_height = MIN_IMAGE_HEIGHT then
        min (((display_height : ℚ) * adjusted_ratio).floor.toNat) display_width
      else display_width
    (display_width, display_height)

/-! ## Layout & scroll engine (`ui/messages.rs`)

The renderer walks the selected view's loaded messages.  Image heights
come from the cache; here they are an oracle `String → Nat` standing for
`ImageCache::get_image_height` at the moment of the frame. -/

/-- `str::len` on a Lean `String`: UTF-8 byte count. -/
def strByteLen (s : String) : Nat := byteSize s.toList

/-- `ui::messages::get_sender_prefix_len`. -/
def get_sender_prefix_len (msg : Message) : Nat :=
  let timestamp_len := 8
  let sender := if msg.is_outgoing then "You" else msg.sender_name.getD "Unknown"
  timestamp_len + strByteLen sender + 4

/-- `ui::messages::calculate_message_height`.  `imgHeight` is the cache's
current answer per attachment path; `width` is the inner area width.
The `as u16` cast of the wrapped-text length is the explicit
`% 2 ^ 16`. -/
def calculate_message_height (imgHeight : String → Nat) (width : Nat) (sender_prefix_len : Nat)
    (msg : Message) : Nat :=
  match msg.content with
  | .attachment attachments =>
    let h := attachments.foldl
      (fun h att =>
        let h := h + 1
        if (att.content_type.map (String.startsWith · "image/")).getD false then
          match att.local_path with
          | some local_path => h + imgHeight local_path
          | none => h
        else h)
      0
    max h 1
  | _ =>
    let text :=
      match msg.content with
      | .text body => body
      | .sticker _ _ => "[Sticker]"
      | .remoteDeleted => "[Message deleted]"
      | .attachment _ => ""
    let total_len := sender_prefix_len + strByteLen text
    max ((total_len % 2 ^ 16 + (max width 1 - 1)) / max width 1) 1

/-- Height of one message with its own prefix (as the render loops
compute it). -/
def messageHeight (imgHeight : String → Nat) (width : Nat) (msg : Message) : Nat :=
  calculate_message_height imgHeight width (get_sender_prefix_len msg) msg

/-- Total rendered height of a loaded message list. -/
def totalContentHeight (imgHeight : String → Nat) (width : Nat) (msgs : List Message) : Nat :=
  (msgs.map (messageHeight imgHeight width)).sum

/-- The first walk of the render loop: find the first message whose band
crosses `target_top`, and how many of its lines to skip.  Falls back to
the initial `(0, 0)` when the walk never breaks. -/
def findStartGo (heights : List Nat) (target_top : Nat) (i cumulative : Nat) : Nat × Nat :=
  match heights with
  | [] => (0, 0)
  | h :: rest =>
    if target_top < cumulative + h then (i, target_top - cumulative)
    else findStartGo rest target_top (i + 1) (cumulative + h)

/-- Entry point of the first render walk. -/
def findStart (heights : List Nat) (target_top : Nat) : Nat × Nat :=
  findStartGo heights target_top 0 0

/-- The second walk of the render loop: keep drawing messages while the
running `y_offset` is below the viewport height; the last drawn index is
`end_idx`. -/
def findEndGo (hv : Nat) (heights : List Nat) (i : Nat) (y : Int) (e : Nat) : Nat :=
  match heights with
  | [] => e
  | h :: rest =>
    if (hv : Int) ≤ y then e
    else findEndGo hv rest (i + 1) (y + h) i

/-- Entry point of the second render walk. -/
def findEnd (heights : List Nat) (start_idx skip : Nat) (hv : Nat) : Nat :=
  findEndGo hv (heights.drop start_idx) start_idx (-(skip : Int)) start_idx

/-- The state effect of `ui::messages::render` on the drawn view: the
selection-cursor scroll override, the clamp of `scroll_offset` to
`max_scroll`, and the publication of `visible_range`.  `wv`/`hv` are the
inner area's width and height.  The early returns (no loaded messages,
or an empty list) leave the view untouched. -/
def renderView (imgHeight : String → Nat) (wv hv : Nat) (v : ConversationView) :
    ConversationView :=
  match v.messages with
  | none => v
  | some msgs =>
    if msgs.isEmpty then v
    else
      let msg_heights := msgs.map (messageHeight imgHeight wv)
      let total_content_height := msg_heights.sum
      let max_scroll := total_content_height - hv
      let scroll_offset := v.scroll_offset
      let scroll_offset :=
        match v.selection with
        | some sel =>
          let cursor_idx := sel.cursor
          let cursor_top := (msg_heights.take cursor_idx).sum
          let cursor_height := (msg_heights.get? cursor_idx).getD 1
          let cursor_bottom := cursor_top + cursor_height
          let view_bottom := total_content_height - scroll_offset
          let view_top := view_bottom - hv
          if cursor_top < view_top then total_content_height - (cursor_top + hv)
          else if view_bottom < cursor_bottom then total_content_height - cursor_bottom
          else scroll_offset
        | none => scroll_offset
      let scroll_offset := min scroll_offset max_scroll
      let target_bottom := total_content_height - scroll_offset
      let target_top := target_bottom - hv
      let fs := findStart msg_heights target_top
      let start_idx := fs.1
      let skip_lines_at_start := fs.2
      let end_idx := findEnd msg_heights start_idx skip_lines_at_start hv
      { v with
          scroll_offset := scroll_offset
          visible_range := some (start_idx, end_idx) }

/-! ## Claim theorems -/

/-- **C9.** For every input-text state whose cursor is on a character
boundary and every sequence of cursor operations (insert, delete_back,
delete_forward, move_left, move_right, move_start, move_end), every
operation succeeds (no Rust slicing/indexing panic on multi-byte text)
and the cursor stays on a character boundary within `[0, text length]`:
cursor movement effectively operates on character boundaries, never
inside a character's UTF-8 encoding. -/
theorem inputState_cursor_always_on_boundary (ops : List EditOp) (s : InputState)
    (h : OnBoundary s) :
    ∃ s', runEditOps ops s = some s' ∧ OnBoundary s' ∧ s'.cursor ≤ byteSize s'.text := by
  induction ops generalizing s with
  | nil => exact ⟨s, rfl, h, cursor_le_of_onBoundary h⟩
  | cons op ops ih =>
    obtain ⟨s1, h1, hb1⟩ := applyEditOp_preserves op s h
    rw [runEditOps, h1, Option.some_bind]
    exact ih s1 hb1

/-- Witness for **C9**: a concrete run over two-byte characters starting
from the empty input state. -/
theorem inputState_cursor_always_on_boundary_witness :
    OnBoundary ⟨[], 0⟩ ∧
      ∃ s', runEditOps
          [.insert 'é', .insert 'x', .move_left, .move_left, .insert 'ü',
           .delete_forward, .move_right, .delete_back, .move_end, .move_start]
          ⟨[], 0⟩ = some s' ∧ OnBoundary s' ∧ s'.cursor ≤ byteSize s'.text :=
  ⟨by decide, inputState_cursor_always_on_boundary _ ⟨[], 0⟩ (by decide)⟩

/-- **C10.** `ConversationView::add_message` always records the message
as the list preview — also when the history is not paged in (`messages =
None`, which then stays `None`); when the history is loaded it appends
the message at the end and unconditionally resets `scroll_offset` to
`0`, discarding any manual scroll position. -/
theorem add_message_preview_append_snap (v : ConversationView) (m : Message) :
    (v.add_message m).last_message_preview = some m ∧
      (∀ msgs, v.messages = some msgs →
        (v.add_message m).messages = some (msgs ++ [m]) ∧ (v.add_message m).scroll_offset = 0) ∧
      (v.messages = none → (v.add_message m).messages = none) := by
  refine ⟨?_, fun msgs hm => ?_, fun hm => ?_⟩ <;>
    simp only [ConversationView.add_message] <;> rcases h : v.messages with _ | msgs' <;>
      simp_all

/-- A concrete sample conversation used by witnesses. -/
def sampleConv : Conversation :=
  { id := "c1"
    conversation_type := .direct
    recipient_uuid := some "alice"
    recipient_number := none
    recipient_name := none
    group_id := none
    group_name := none
    last_message_timestamp := some 3
    unread_count := 0
    is_archived := false
    is_muted := false }

/-- A concrete sample outgoing text message used by witnesses. -/
def sampleMsg (i : Nat) : Message :=
  { id := "m" ++ toString i
    conversation_id := "c1"
    sender_uuid := "me"
    sender_name := none
    timestamp := (i : Int)
    server_timestamp := none
    received_at := 0
    content := .text "hi"
    is_outgoing := true
    is_read := true
    is_deleted := false
    is_edited := false }

/-- Witness for **C10**: a concrete loaded view and a concrete unloaded
view. -/
theorem add_message_preview_append_snap_witness :
    ((⟨sampleConv, some [], 7, true, none, none, none⟩ : ConversationView).add_message
        (sampleMsg 1)).messages = some [sampleMsg 1] ∧
      ((⟨sampleConv, some [], 7, true, none, none, none⟩ : ConversationView).add_message
        (sampleMsg 1)).scroll_offset = 0 ∧
      ((⟨sampleConv, none, 7, true, none, none, none⟩ : ConversationView).add_message
        (sampleMsg 1)).messages = none := by
  refine ⟨?_, ?_, ?_⟩
  · exact ((add_message_preview_append_snap _ (sampleMsg 1)).2.1 [] rfl).1
  · exact ((add_message_preview_append_snap _ (sampleMsg 1)).2.1 [] rfl).2
  · exact (add_message_preview_append_snap _ (sampleMsg 1)).2.2 rfl

/-- **C8.** `ConversationView::load_older_messages` never changes
`scroll_offset`: backward paging leaves the distance-from-bottom scroll
position untouched on every path (no more pages, empty or failed fetch,
and the prepend path alike). -/
theorem load_older_messages_preserves_scroll_offset (fetch : FetchFn) (v : ConversationView) :
    (v.load_older_messages fetch).1.scroll_offset = v.scroll_offset := by
  rw [ConversationView.load_older_messages]
  repeat' split
  all_goals try rfl
  all_goals dsimp only
  all_goals repeat' split
  all_goals rfl

/-- `Rat.floor` agrees with the floor of the `FloorRing` instance. -/
theorem rat_floor_toNat (q : ℚ) : q.floor.toNat = (⌊q⌋).toNat := by
  rw [Rat.floor_def', ← Rat.floor_def]

/-- The computed display size of a 1920×1080 image at `max_width = 60`. -/
theorem calc_display_1920x1080 : calculate_display_size 1920 1080 60 = (60, 16) := by
  have h2 : ((135 : ℚ) / 8).floor.toNat = 16 := by
    rw [rat_floor_toNat]
    norm_num
    rfl
  rw [calculate_display_size, if_neg (by norm_num)]
  norm_num [MAX_IMAGE_WIDTH, MAX_IMAGE_HEIGHT, MIN_IMAGE_HEIGHT, h2]

/-- **C5 (counterexample).** The claimed display size (60, 17) for a
1920×1080 image at `max_width = 60` is not what
`calculate_display_size` returns: the `as u16` cast truncates
`60 / (16/9 × 2) = 16.875` to 16, it does not round up. -/
theorem display_size_1920x1080_not_60_17 :
    calculate_display_size 1920 1080 60 ≠ (60, 17) := by
  rw [calc_display_1920x1080]
  decide

/-- **C5 (amended).** A 1920×1080 image requested with `max_width = 60`
resolves to display size (60, **16**): width `min(60, 60) = 60`, height
`⌊60 / (1920/1080 × 2)⌋ = ⌊16.875⌋ = 16`, strictly inside the `[4, 20]`
clamp, so the width is not recomputed from the height. -/
theorem display_size_1920x1080 : calculate_display_size 1920 1080 60 = (60, 16) :=
  calc_display_1920x1080

/-- `find?` by one key ignores a filter that removes another key. -/
theorem find?_filter_other_key (l : ImageCacheMap) (key path : String) (h : path ≠ key) :
    (l.filter fun p => p.1 ≠ key).find? (fun p => p.1 == path)
      = l.find? (fun p => p.1 == path) := by
  induction l with
  | nil => rfl
  | cons q rest ih =>
    by_cases hq : q.1 = key
    · have hqp : (q.1 == path) = false := by simp [hq, Ne.symm h]
      rw [List.filter_cons_of_neg (by simp [hq]), List.find?_cons, hqp, ih]
    · rw [List.filter_cons_of_pos (by simp [hq]), List.find?_cons, List.find?_cons]
      cases hqp : (q.1 == path) with
      | true => rfl
      | false => exact ih

/-- `cacheGet` after `cacheInsert`. -/
theorem cacheGet_insert (cache : ImageCacheMap) (key : String) (st : ImageState) (path : String) :
    cacheGet (cacheInsert cache key st) path
      = if path = key then some st else cacheGet cache path := by
  rw [cacheGet, cacheInsert, List.find?_cons]
  by_cases h : path = key
  · rw [show (key == path) = true by simp [h], if_pos h]
    rfl
  · rw [show (key == path) = false by simp [Ne.symm h], if_neg h,
      find?_filter_other_key _ _ _ h, cacheGet]

/-- The flag component of the `process_pending` fold never influences
the resulting cache. -/
theorem process_pending_go_fst (results : List (Option LoadedImageData))
    (cache : ImageCacheMap) (b b' : Bool) :
    (results.foldl
      (fun acc result =>
        match result with
        | some data => (cacheInsert acc.1 data.path (.loaded data.width data.height), true)
        | none => acc)
      (cache, b)).1 =
    (results.foldl
      (fun acc result =>
        match result with
        | some data => (cacheInsert acc.1 data.path (.loaded data.width data.height), true)
        | none => acc)
      (cache, b')).1 := by
  induction results generalizing cache b b' with
  | nil => rfl
  | cons r rest ih =>
    cases r with
    | some d => exact ih _ _ _
    | none => exact ih _ _ _

/-- Unfolding `process_pending` one result at a time. -/
theorem process_pending_fst_cons (r : Option LoadedImageData)
    (results : List (Option LoadedImageData)) (cache : ImageCacheMap) :
    (process_pending (r :: results) cache).1 =
      match r with
      | some d => (process_pending results (cacheInsert cache d.path (.loaded d.width d.height))).1
      | none => (process_pending results cache).1 := by
  cases r with
  | some d => exact process_pending_go_fst results _ true false
  | none => rfl

/-- **C6 (counterexample).** A failed read/decode reaches the engine as a
`None` worker result, and draining the result queue with
`process_pending` does **not** install a `Failed` entry for the path: the
`None` is skipped, and the path stays `Loading`. -/
theorem failed_load_not_installed :
    cacheGet (process_pending [none] [("a.png", ImageState.loading)]).1 "a.png"
        = some ImageState.loading ∧
      cacheGet (process_pending [none] [("a.png", ImageState.loading)]).1 "a.png"
        ≠ some ImageState.failed := by decide

/-- **C6 (amended).** Draining the result queue installs only successful
results (as `Loaded` with the decoded dimensions); a `None` (failed
read/decode) result is discarded, leaving the path's cache entry — in
particular a `Loading` one — unchanged.  A `Failed` entry is installed
only by the synchronous existence check of `start_loading` when the
resolved path does not exist. -/
theorem process_pending_discards_failures :
    (∀ (results : List (Option LoadedImageData)) (cache : ImageCacheMap) (path : String)
        (st : ImageState),
      cacheGet cache path = some st →
      (∀ r ∈ results, ∀ x : LoadedImageData, r = some x → x.path ≠ path) →
      cacheGet (process_pending results cache).1 path = some st) ∧
    (∀ (cache : ImageCacheMap) (d : LoadedImageData),
      cacheGet (process_pending [some d] cache).1 d.path
        = some (ImageState.loaded d.width d.height)) ∧
    (∀ (fileExists : String → Bool) (cache : ImageCacheMap) (path : String),
      fileExists path = false →
      cacheGet (start_loading fileExists cache path).1 path = some ImageState.failed) := by
  refine ⟨?_, ?_, ?_⟩
  · intro results
    induction results with
    | nil => intro cache path st h _; exact h
    | cons r rest ih =>
      intro cache path st h hout
      rw [process_pending_fst_cons]
      cases r with
      | some d =>
        have hne : d.path ≠ path := hout (some d) (by simp) d rfl
        refine ih _ _ _ ?_ fun r hr => hout r (by simp [hr])
        rw [cacheGet_insert, if_neg (Ne.symm hne)]
        exact h
      | none => exact ih _ _ _ h fun r hr => hout r (by simp [hr])
  · intro cache d
    rw [process_pending_fst_cons]
    show cacheGet (process_pending [] _).1 _ = _
    rw [show ∀ c, (process_pending [] c).1 = c from fun _ => rfl, cacheGet_insert, if_pos rfl]
  · intro fileExists cache path h
    rw [start_loading, h]
    show cacheGet (cacheInsert cache path .failed) path = _
    rw [cacheGet_insert, if_pos rfl]

/-- Witness for **C6 (amended)**: a drained failure leaves a concrete
`Loading` entry untouched, a drained success installs `Loaded`, and a
missing file installs `Failed` synchronously. -/
theorem process_pending_discards_failures_witness :
    cacheGet (process_pending [none] [("a.png", ImageState.loading)]).1 "a.png"
        = some ImageState.loading ∧
      cacheGet (process_pending [some ⟨"b.png", 30, 9⟩] []).1 "b.png"
        = some (ImageState.loaded 30 9) ∧
      cacheGet (start_loading (fun _ => false) [] "c.png").1 "c.png" = some ImageState.failed :=
  ⟨process_pending_discards_failures.1 [none] [("a.png", ImageState.loading)] "a.png"
      ImageState.loading (by decide) (by rintro r hr x rfl; simp at hr),
    process_pending_discards_failures.2.1 [] ⟨"b.png", 30, 9⟩,
    process_pending_discards_failures.2.2 (fun _ => false) [] "c.png" rfl⟩

/-! ### C3: backward paging keeps the window sorted and duplicate-free -/

/-- Strictly ascending by protocol timestamp. -/
def TsAscending (l : List Message) : Prop :=
  l.Chain' fun a b => a.timestamp < b.timestamp

/-- No two loaded messages share a `(sender_uuid, timestamp)` signal id. -/
def SignalIdDistinct (l : List Message) : Prop :=
  l.Pairwise fun a b => (a.sender_uuid, a.timestamp) ≠ (b.sender_uuid, b.timestamp)

/-- The paging contract of the claim: a page fetched below a cursor is
strictly ascending and strictly older than the cursor. -/
def GoodFetch (fetch : FetchFn) : Prop :=
  ∀ cid lim ts page, fetch cid lim (some ts) = some page →
    TsAscending page ∧ ∀ m ∈ page, m.timestamp < ts

/-- `n` successive backward page loads. -/
def loadOlderIter (fetch : FetchFn) (v : ConversationView) : Nat → ConversationView
  | 0 => v
  | n + 1 => ((loadOlderIter fetch v n).load_older_messages fetch).1

/-- One backward page load preserves the sorted window. -/
theorem load_older_step (fetch : FetchFn) (v : ConversationView) (l : List Message)
    (hf : GoodFetch fetch) (hm : v.messages = some l) (ha : TsAscending l) :
    ∃ l', ((v.load_older_messages fetch).1).messages = some l' ∧ TsAscending l' := by
  rw [ConversationView.load_older_messages]
  split
  · exact ⟨l, hm, ha⟩
  · split
    · next before_ts heq =>
      split
      · next page hfetch =>
        split
        · exact ⟨l, hm, ha⟩
        · dsimp only
          split
          · next msgs hmsgs =>
            rw [hm] at hmsgs
            injection hmsgs with hmsgs
            subst hmsgs
            refine ⟨page ++ l, rfl, ?_⟩
            obtain ⟨hasc, holder⟩ := hf _ _ _ _ hfetch
            rw [hm] at heq
            refine List.chain'_append.mpr ⟨hasc, ha, fun x hx y hy => ?_⟩
            have hbts : l.head?.map Message.timestamp = some before_ts := heq
            rw [Option.map_eq_some'] at hbts
            obtain ⟨mhd, hhd, hts⟩ := hbts
            rw [hhd, Option.mem_some_iff] at hy
            subst hy
            rw [← hts] at holder
            obtain ⟨hne, rfl⟩ := List.mem_getLast?_eq_getLast hx
            exact holder _ (List.getLast_mem hne)
          · next hmsgs =>
            rw [hm] at hmsgs
            cases hmsgs
      · exact ⟨l, hm, ha⟩
    · exact ⟨l, hm, ha⟩

/-- **C3.** Starting from a loaded, strictly-ascending window, any number
of `load_older_messages` calls (the Store returning strictly-older pages
in ascending timestamp order, per the `GoodFetch` contract) keeps the
window strictly ascending by timestamp and free of duplicate
`(sender_uuid, timestamp)` pairs; each page is prepended before the
current messages (the window stays loaded). -/
theorem load_older_keeps_sorted_distinct (fetch : FetchFn) (v : ConversationView)
    (l : List Message) (n : Nat) (hf : GoodFetch fetch) (hm : v.messages = some l)
    (ha : TsAscending l) :
    ∃ l', (loadOlderIter fetch v n).messages = some l' ∧ TsAscending l' ∧ SignalIdDistinct l' := by
  haveI : IsTrans Message fun a b => a.timestamp < b.timestamp :=
    ⟨fun _ _ _ hab hbc => lt_trans hab hbc⟩
  suffices h : ∃ l', (loadOlderIter fetch v n).messages = some l' ∧ TsAscending l' by
    obtain ⟨l', h1, h2⟩ := h
    refine ⟨l', h1, h2, ?_⟩
    exact (List.chain'_iff_pairwise.mp h2).imp fun hlt hk => by
      rw [Prod.mk.injEq] at hk
      exact absurd (hk.2 ▸ hlt) (lt_irrefl _)
  induction n with
  | zero => exact ⟨l, hm, ha⟩
  | succ n ih =>
    obtain ⟨ln, hmn, han⟩ := ih
    exact load_older_step fetch _ ln hf hmn han

/-- Witness for **C3**: three backward pages against a store stub that
always returns a strictly-older singleton page. -/
theorem load_older_keeps_sorted_distinct_witness :
    GoodFetch (fun _ _ b =>
      match b with
      | some ts => some [{ sampleMsg 0 with timestamp := ts - 1 }]
      | none => some []) ∧
      ∃ l', (loadOlderIter (fun _ _ b =>
          match b with
          | some ts => some [{ sampleMsg 0 with timestamp := ts - 1 }]
          | none => some [])
          ⟨sampleConv, some [sampleMsg 10], 0, true, none, none, none⟩ 3).messages = some l' ∧
        TsAscending l' ∧ SignalIdDistinct l' := by
  have hgood : GoodFetch (fun _ _ b =>
      match b with
      | some ts => some [{ sampleMsg 0 with timestamp := ts - 1 }]
      | none => some []) := by
    intro cid lim ts page h
    simp only [Option.some_inj] at h
    subst h
    refine ⟨List.chain'_singleton _, fun m hm => ?_⟩
    rw [List.mem_singleton] at hm
    subst hm
    show ts - 1 < ts
    omega
  exact ⟨hgood,
    load_older_keeps_sorted_distinct _ _ [sampleMsg 10] 3 hgood rfl (List.chain'_singleton _)⟩

/-! ### C1: the scroll-offset bound -/

/-- The claimed invariant: whenever the view's history is loaded, the
scroll offset does not exceed `max(0, total_rendered_height −
viewport_height)` (Nat subtraction is the saturating `max(0, ·)`). -/
def ScrollInv (imgHeight : String → Nat) (wv hv : Nat) (v : ConversationView) : Prop :=
  ∀ l, v.messages = some l → v.scroll_offset ≤ totalContentHeight imgHeight wv l - hv

theorem totalContentHeight_append (imgHeight : String → Nat) (wv : Nat) (a b : List Message) :
    totalContentHeight imgHeight wv (a ++ b)
      = totalContentHeight imgHeight wv a + totalContentHeight imgHeight wv b := by
  rw [totalContentHeight, List.map_append, List.sum_append]
  rfl

/-- After a render of a loaded non-empty list, the scroll offset is
clamped below `total − viewport` and the messages are untouched. -/
theorem renderView_scroll_le (imgHeight : String → Nat) (wv hv : Nat) (v : ConversationView)
    (l : List Message) (hm : v.messages = some l) (hne : l ≠ []) :
    (renderView imgHeight wv hv v).scroll_offset ≤ totalContentHeight imgHeight wv l - hv ∧
      (renderView imgHeight wv hv v).messages = some l := by
  simp only [renderView, hm]
  rw [if_neg (by simp [hne])]
  exact ⟨min_le_right _ _, rfl⟩

/-- **C1 (amended).** The bound `0 ≤ scroll_offset ≤ max(0,
total_rendered_height − viewport_height)` is preserved by append
(`add_message` snaps to 0), backward page load (`load_older_messages`
keeps the offset and can only grow the total), initial page-in
(`load_messages` snaps to 0) and scroll down (`scroll_messages_down`
only decreases the offset), and it is (re-)established by the renderer's
clamp for every loaded non-empty view; `scroll_messages_up` however can
exceed the bound until that next render clamp (see the
counterexample). -/
theorem scroll_offset_bound_amended (imgHeight : String → Nat) (wv hv : Nat) :
    (∀ (v : ConversationView) (m : Message), ScrollInv imgHeight wv hv (v.add_message m)) ∧
    (∀ (fetch : FetchFn) (v : ConversationView), ScrollInv imgHeight wv hv v →
      ScrollInv imgHeight wv hv (v.load_older_messages fetch).1) ∧
    (∀ (fetch : FetchFn) (v : ConversationView), ScrollInv imgHeight wv hv v →
      ScrollInv imgHeight wv hv (v.load_messages fetch).1) ∧
    (∀ a : App, (∀ v ∈ a.conversations, ScrollInv imgHeight wv hv v) →
      ∀ v ∈ a.scroll_messages_down.conversations, ScrollInv imgHeight wv hv v) ∧
    (∀ (v : ConversationView) (l : List Message), v.messages = some l → l ≠ [] →
      ScrollInv imgHeight wv hv (renderView imgHeight wv hv v)) := by
  refine ⟨?_, ?_, ?_, ?_, ?_⟩
  · intro v m l hl
    rw [ConversationView.add_message] at hl ⊢
    rcases hvm : v.messages with _ | msgs
    · rw [hvm] at hl
      exact Option.noConfusion hl
    · exact Nat.zero_le _
  · intro fetch v hinv
    rw [ConversationView.load_older_messages]
    split
    · exact hinv
    · split
      · split
        · next page hfetch =>
          split
          · intro l hl
            exact hinv l hl
          · dsimp only
            split
            · next msgs hmsgs =>
              intro l hl
              simp only at hl
              injection hl with hl
              subst hl
              calc v.scroll_offset
                  ≤ totalContentHeight imgHeight wv msgs - hv := hinv msgs hmsgs
                _ ≤ totalContentHeight imgHeight wv (page ++ msgs) - hv := by
                    rw [totalContentHeight_append]
                    exact Nat.sub_le_sub_right (Nat.le_add_left _ _) hv
            · next hmsgs =>
              intro l hl
              exact hinv l hl
        · exact hinv
      · exact hinv
  · intro fetch v hinv
    rw [ConversationView.load_messages]
    split
    · split
      · intro l _
        exact Nat.zero_le _
      · exact hinv
    · exact hinv
  · intro a hall v hvmem
    rw [App.scroll_messages_down] at hvmem
    cases hsel : a.conversations.get? a.selected with
    | none =>
      rw [hsel] at hvmem
      exact hall v hvmem
    | some conv =>
      rw [hsel] at hvmem
      rcases List.mem_or_eq_of_mem_set hvmem with hmem | rfl
      · exact hall v hmem
      · intro l hl
        have hconv := hall conv (List.get?_mem hsel) l hl
        exact le_trans (Nat.sub_le _ _) hconv
  · intro v l hm hne l' hl'
    obtain ⟨hle, hmsg⟩ := renderView_scroll_le imgHeight wv hv v l hm hne
    rw [hmsg] at hl'
    injection hl' with hl'
    rw [← hl']
    exact hle

/-- The three-message fixture of the scroll counterexample. -/
def msgsC1 : List Message := [sampleMsg 1, sampleMsg 2, sampleMsg 3]

/-- A loaded view at the bottom with no further history. -/
def viewC1 : ConversationView :=
  { conversation := sampleConv
    messages := some msgsC1
    scroll_offset := 0
    has_more_messages := false
    selection := none
    visible_range := none
    last_message_preview := none }

/-- An engine state whose selected conversation is `viewC1`. -/
def appC1 : App :=
  { storage := { conversations := [sampleConv], messages := [], uuid_counter := 0 }
    my_uuid := some "me"
    my_number := none
    conversations := [viewC1]
    selected := 0
    needs_image_preload := false
    pending_preload_paths := []
    now := 0 }

/-- **C1 (counterexample).** `App::scroll_messages_up` adds
`SCROLL_LINES = 3` without any clamp: on a view whose three one-line
messages (total height 3) fit a 20-line viewport (`max(0, 3 − 20) = 0`),
one scroll-up leaves `scroll_offset = 3 > 0`, violating the claimed
bound immediately after the operation. -/
theorem scroll_up_exceeds_bound :
    appC1.scroll_messages_up.conversations.get? 0 = some { viewC1 with scroll_offset := 3 } ∧
      totalContentHeight (fun _ => 0) 80 msgsC1 - 20 = 0 ∧
      ¬ ScrollInv (fun _ => 0) 80 20 { viewC1 with scroll_offset := 3 } :=
  ⟨by decide, by decide, fun h => absurd (h msgsC1 rfl) (by decide)⟩

/-- Witness for **C1 (amended)**: the preserved and re-established bound
at concrete inputs, including the renderer clamping the out-of-bound
offset 3 back into range. -/
theorem scroll_offset_bound_amended_witness :
    ScrollInv (fun _ => 0) 80 20 (viewC1.add_message (sampleMsg 4)) ∧
      ScrollInv (fun _ => 0) 80 20 (viewC1.load_older_messages (fun _ _ _ => none)).1 ∧
      ScrollInv (fun _ => 0) 80 20 (viewC1.load_messages (fun _ _ _ => none)).1 ∧
      (∀ v ∈ appC1.scroll_messages_down.conversations, ScrollInv (fun _ => 0) 80 20 v) ∧
      ScrollInv (fun _ => 0) 80 20
        (renderView (fun _ => 0) 80 20 { viewC1 with scroll_offset := 3 }) := by
  have T := scroll_offset_bound_amended (fun _ => 0) 80 20
  have hv : ScrollInv (fun _ => 0) 80 20 viewC1 := fun _ _ => Nat.zero_le _
  refine ⟨T.1 viewC1 (sampleMsg 4), T.2.1 _ viewC1 hv, T.2.2.1 _ viewC1 hv,
    T.2.2.2.1 appC1 ?_, T.2.2.2.2 { viewC1 with scroll_offset := 3 } msgsC1 rfl (by decide)⟩
  intro v hvm
  rw [show appC1.conversations = [viewC1] from rfl, List.mem_singleton] at hvm
  subst hvm
  exact hv

/-! ### C7: selection validity -/

/-- The claimed invariant: a present selection has both endpoints inside
the loaded message list (hence the inclusive range
`[min(anchor,cursor), max(anchor,cursor)]` is non-empty and in
bounds). -/
def SelValid (v : ConversationView) : Prop :=
  ∀ sel, v.selection = some sel →
    ∃ l, v.messages = some l ∧ sel.anchor < l.length ∧ sel.cursor < l.length

/-- A published visible range is an ordered pair of indices into the
loaded message list. -/
def VisValid (v : ConversationView) : Prop :=
  ∀ r l, v.visible_range = some r → v.messages = some l → r.1 ≤ r.2 ∧ r.2 < l.length

theorem findStartGo_bounds (heights : List Nat) (t i cum : Nat) :
    (findStartGo heights t i cum).1 = 0 ∨
      (i ≤ (findStartGo heights t i cum).1 ∧
        (findStartGo heights t i cum).1 + 1 ≤ i + heights.length) := by
  induction heights generalizing i cum with
  | nil => exact Or.inl rfl
  | cons h rest ih =>
    rw [findStartGo]
    split
    · exact Or.inr ⟨le_refl i, by simp⟩
    · rcases ih (i + 1) (cum + h) with h0 | ⟨h1, h2⟩
      · exact Or.inl h0
      · exact Or.inr ⟨le_trans (Nat.le_succ i) h1, by rw [List.length_cons]; omega⟩

theorem findEndGo_bounds (heights : List Nat) (hv i : Nat) (y : Int) (e : Nat) (he : e ≤ i) :
    e ≤ findEndGo hv heights i y e ∧
      (findEndGo hv heights i y e = e ∨
        (i ≤ findEndGo hv heights i y e ∧
          findEndGo hv heights i y e + 1 ≤ i + heights.length)) := by
  induction heights generalizing i y e with
  | nil => exact ⟨le_refl e, Or.inl rfl⟩
  | cons h rest ih =>
    rw [findEndGo]
    split
    · exact ⟨le_refl e, Or.inl rfl⟩
    · obtain ⟨h1, h2⟩ := ih (i + 1) (y + h) i (Nat.le_succ i)
      refine ⟨le_trans he h1, Or.inr ⟨?_, ?_⟩⟩
      · rcases h2 with h2 | ⟨h2a, _⟩ <;> omega
      · simp only [List.length_cons]
        rcases h2 with h2 | ⟨_, h2b⟩ <;> omega

/-- The render walks publish an ordered, in-bounds visible range for
every loaded non-empty list. -/
theorem findStart_findEnd_bounds (heights : List Nat) (t hv : Nat) (hne : heights ≠ []) :
    (findStart heights t).1 ≤ findEnd heights (findStart heights t).1 (findStart heights t).2 hv ∧
      findEnd heights (findStart heights t).1 (findStart heights t).2 hv < heights.length := by
  have hlen : 0 < heights.length := List.length_pos.mpr hne
  have hstart : (findStart heights t).1 < heights.length := by
    rcases findStartGo_bounds heights t 0 0 with h0 | ⟨_, h2⟩
    · rw [findStart, h0]
      exact hlen
    · rw [findStart]
      omega
  obtain ⟨h1, h2⟩ := findEndGo_bounds (heights.drop (findStart heights t).1) hv
    (findStart heights t).1 (-((findStart heights t).2 : Int)) (findStart heights t).1 (le_refl _)
  rw [findEnd]
  refine ⟨h1, ?_⟩
  rcases h2 with h2 | ⟨_, h2b⟩
  · rw [h2]
    exact hstart
  · rw [List.length_drop] at h2b
    omega

/-- After a render of a loaded non-empty list, the published
`visible_range` is valid and the messages are untouched. -/
theorem renderView_visible_range_valid (imgHeight : String → Nat) (wv hv : Nat)
    (v : ConversationView) (l : List Message) (hm : v.messages = some l) (hne : l ≠ []) :
    VisValid (renderView imgHeight wv hv v) := by
  intro r l' hr hl'
  have hmsg : (renderView imgHeight wv hv v).messages = some l :=
    (renderView_scroll_le imgHeight wv hv v l hm hne).2
  rw [hmsg] at hl'
  injection hl' with hl'
  subst hl'
  revert hr
  simp only [renderView, hm]
  rw [if_neg (by simp [hne])]
  intro hr
  injection hr with hr
  rw [← hr]
  constructor
  · exact (findStart_findEnd_bounds _ _ hv (by simp [hne])).1
  · rw [show l.length = (l.map (messageHeight imgHeight wv)).length from
      (List.length_map _ _).symm]
    exact (findStart_findEnd_bounds _ _ hv (by simp [hne])).2

/-- `render` never touches the selection. -/
theorem renderView_selection_eq (imgHeight : String → Nat) (wv hv : Nat)
    (v : ConversationView) : (renderView imgHeight wv hv v).selection = v.selection := by
  rw [renderView]
  split
  · rfl
  · split <;> rfl

/-- `render` never touches the message list. -/
theorem renderView_messages_eq (imgHeight : String → Nat) (wv hv : Nat)
    (v : ConversationView) : (renderView imgHeight wv hv v).messages = v.messages := by
  rw [renderView]
  split
  · rfl
  · split <;> rfl

/-- `shrink_selection` never touches the message list. -/
theorem shrink_selection_messages (v : ConversationView) :
    v.shrink_selection.messages = v.messages := by
  rw [ConversationView.shrink_selection]
  repeat' split
  all_goals rfl

/-- **C7 (amended).** A present selection stays a valid, non-empty
inclusive index range into the loaded messages across every selection
and list operation — `move_selection`, `shrink_selection`,
`delete_selected_messages` (which clears it), backward paging, append
and render — and `enter_selection_mode` creates a valid one *provided*
the published `visible_range`, when present, is an ordered in-bounds
pair for the current list (which holds right after a render, by the last
two conjuncts, but can fail for a stale range; see the
counterexample). -/
theorem selection_valid_amended :
    (∀ v : ConversationView, SelValid v → VisValid v → SelValid v.enter_selection_mode) ∧
    (∀ (v : ConversationView) (d : Int) (ext : Bool), SelValid v →
      SelValid (v.move_selection d ext)) ∧
    (∀ v : ConversationView, SelValid v → SelValid v.shrink_selection) ∧
    (∀ v : ConversationView, SelValid v → SelValid (v.delete_selected_messages).1) ∧
    (∀ (fetch : FetchFn) (v : ConversationView), SelValid v →
      SelValid (v.load_older_messages fetch).1) ∧
    (∀ (v : ConversationView) (m : Message), SelValid v → SelValid (v.add_message m)) ∧
    (∀ (imgHeight : String → Nat) (wv hv : Nat) (v : ConversationView), SelValid v →
      SelValid (renderView imgHeight wv hv v)) ∧
    (∀ (imgHeight : String → Nat) (wv hv : Nat) (v : ConversationView) (l : List Message),
      v.messages = some l → l ≠ [] → VisValid (renderView imgHeight wv hv v)) := by
  refine ⟨?_, ?_, ?_, ?_, ?_, ?_, ?_, ?_⟩
  · -- enter_selection_mode
    rintro ⟨cv, msgs, so, hmore, selv, vr, prev⟩ hs hvv
    rcases msgs with _ | l
    · exact hs
    · rcases l with _ | ⟨m, rest⟩
      · exact hs
      · intro sel hsel
        rcases vr with _ | r
        · have hsel2 : some (⟨(m :: rest).length - 1, (m :: rest).length - 1⟩ : MessageSelection)
              = some sel := hsel
          injection hsel2 with hsel2
          subst hsel2
          refine ⟨m :: rest, rfl, ?_, ?_⟩ <;> simp
        · obtain ⟨hr1, hr2⟩ := hvv r (m :: rest) rfl rfl
          have hsel2 : some (⟨(r.1 + r.2) / 2, (r.1 + r.2) / 2⟩ : MessageSelection)
              = some sel := hsel
          injection hsel2 with hsel2
          subst hsel2
          refine ⟨m :: rest, rfl, ?_, ?_⟩ <;> simp only [List.length_cons] at * <;> omega
  · -- move_selection
    rintro ⟨cv, msgs, so, hmore, selv, vr, prev⟩ d ext hs
    rcases msgs with _ | l
    · exact hs
    · rcases l with _ | ⟨m, rest⟩
      · exact hs
      · rcases selv with _ | sel0
        · exact hs
        · obtain ⟨lx, hlx, ha0, hc0⟩ := hs sel0 rfl
          injection hlx with hlx
          subst hlx
          intro sel hsel
          have hsel2 : some
              (⟨if ext then sel0.anchor
                else if d < 0 then sel0.cursor - 1 else min (sel0.cursor + 1) (rest.length + 1 - 1),
                if d < 0 then sel0.cursor - 1 else min (sel0.cursor + 1) (rest.length + 1 - 1)⟩ :
                MessageSelection) = some sel := hsel
          injection hsel2 with hsel2
          subst hsel2
          refine ⟨m :: rest, rfl, ?_, ?_⟩ <;> simp only [List.length_cons] at * <;>
            split_ifs <;> omega
  · -- shrink_selection
    rintro ⟨cv, msgs, so, hmore, selv, vr, prev⟩ hs
    rcases selv with _ | sel0
    · exact hs
    · obtain ⟨lx, hlx, ha0, hc0⟩ := hs sel0 rfl
      intro sel hsel
      by_cases h1 : sel0.anchor < sel0.cursor
      · have hsel2 : some (⟨sel0.anchor, sel0.cursor - 1⟩ : MessageSelection) = some sel := by
          rw [← hsel, ConversationView.shrink_selection]
          simp only [if_pos h1]
        injection hsel2 with hsel2
        subst hsel2
        exact ⟨lx, by rw [shrink_selection_messages]; exact hlx, ha0, by dsimp only; omega⟩
      · by_cases h2 : sel0.cursor < sel0.anchor
        · have hsel2 : some (⟨sel0.anchor, sel0.cursor + 1⟩ : MessageSelection) = some sel := by
            rw [← hsel, ConversationView.shrink_selection]
            simp only [if_neg h1, if_pos h2]
          injection hsel2 with hsel2
          subst hsel2
          exact ⟨lx, by rw [shrink_selection_messages]; exact hlx, ha0, by dsimp only; omega⟩
        · have hsel2 : some sel0 = some sel := by
            rw [← hsel, ConversationView.shrink_selection]
            simp only [if_neg h1, if_neg h2]
          injection hsel2 with hsel2
          subst hsel2
          exact ⟨lx, by rw [shrink_selection_messages]; exact hlx, ha0, hc0⟩
  · -- delete_selected_messages
    rintro ⟨cv, msgs, so, hmore, selv, vr, prev⟩ hs
    rcases selv with _ | sel0
    · exact hs
    · rcases msgs with _ | l
      · obtain ⟨lx, hlx, _⟩ := hs sel0 rfl
        cases hlx
      · intro sel hsel
        cases hsel
  · -- load_older_messages
    intro fetch v hs
    rw [ConversationView.load_older_messages]
    split
    · exact hs
    · split
      · next before_ts heq =>
        split
        · next page hfetch =>
          split
          · intro sel hsel
            obtain ⟨l, hl, ha, hc⟩ := hs sel hsel
            exact ⟨l, hl, ha, hc⟩
          · dsimp only
            split
            · next msgs hmsgs =>
              intro sel hsel
              obtain ⟨l, hl, ha, hc⟩ := hs sel hsel
              rw [hmsgs] at hl
              injection hl with hl
              subst hl
              exact ⟨page ++ msgs, rfl, by rw [List.length_append]; omega,
                by rw [List.length_append]; omega⟩
            · intro sel hsel
              exact hs sel hsel
        · exact hs
      · exact hs
  · -- add_message
    rintro ⟨cv, msgs, so, hmore, selv, vr, prev⟩ m hs
    rcases msgs with _ | l
    · intro sel hsel
      obtain ⟨lx, hlx, _⟩ := hs sel hsel
      cases hlx
    · intro sel hsel
      obtain ⟨lx, hlx, ha, hc⟩ := hs sel hsel
      injection hlx with hlx
      subst hlx
      exact ⟨l ++ [m], rfl, by rw [List.length_append]; omega,
        by rw [List.length_append]; omega⟩
  · -- render preserves the selection invariant
    intro imgHeight wv hv v hs sel hsel
    rw [renderView_selection_eq] at hsel
    obtain ⟨l, hl, ha, hc⟩ := hs sel hsel
    exact ⟨l, by rw [renderView_messages_eq]; exact hl, ha, hc⟩
  · -- render publishes a valid visible range
    intro imgHeight wv hv v l hm hne
    exact renderView_visible_range_valid imgHeight wv hv v l hm hne

/-- A single-message view carrying a stale `visible_range` from an
earlier, longer list (the renderer leaves `visible_range` untouched when
the list empties, and the key loop can run several operations between
renders). -/
def viewC7 : ConversationView :=
  { conversation := sampleConv
    messages := some [sampleMsg 1]
    scroll_offset := 0
    has_more_messages := false
    selection := none
    visible_range := some (0, 9)
    last_message_preview := none }

/-- **C7 (counterexample).** `enter_selection_mode` seeds the selection
from the centre of `visible_range` without re-checking it against the
current list: with one loaded message and a stale range `(0, 9)` it
creates `anchor = cursor = 4`, which is not a valid index into the
single-element list — the claimed invariant fails right after the
operation. -/
theorem enter_selection_stale_range_invalid :
    viewC7.enter_selection_mode.selection = some ⟨4, 4⟩ ∧
      viewC7.enter_selection_mode.messages = some [sampleMsg 1] ∧
      ¬ SelValid viewC7.enter_selection_mode := by
  refine ⟨by decide, by decide, fun h => ?_⟩
  obtain ⟨l, hl, ha, _⟩ := h ⟨4, 4⟩ (by decide)
  rw [show viewC7.enter_selection_mode.messages = some [sampleMsg 1] from by decide] at hl
  injection hl with hl
  subst hl
  exact absurd ha (by decide)

/-- A three-message view with a live selection and a fresh visible
range. -/
def viewC7sel : ConversationView :=
  { conversation := sampleConv
    messages := some msgsC1
    scroll_offset := 0
    has_more_messages := true
    selection := some ⟨1, 2⟩
    visible_range := some (0, 2)
    last_message_preview := none }

/-- Witness for **C7 (amended)**: every operation applied to a concrete
valid view keeps the selection valid, and the render publishes a valid
range. -/
theorem selection_valid_amended_witness :
    SelValid viewC7sel.enter_selection_mode ∧
      SelValid (viewC7sel.move_selection 1 true) ∧
      SelValid viewC7sel.shrink_selection ∧
      SelValid viewC7sel.delete_selected_messages.1 ∧
      SelValid (viewC7sel.load_older_messages (fun _ _ _ => none)).1 ∧
      SelValid (viewC7sel.add_message (sampleMsg 4)) ∧
      SelValid (renderView (fun _ => 0) 80 20 viewC7sel) ∧
      VisValid (renderView (fun _ => 0) 80 20 viewC7sel) := by
  have hs : SelValid viewC7sel := by
    rintro sel h
    injection h with h
    subst h
    exact ⟨msgsC1, rfl, by decide, by decide⟩
  have hvv : VisValid viewC7sel := by
    rintro r l hr hl
    injection hr with hr
    injection hl with hl
    subst hr
    subst hl
    exact ⟨by decide, by decide⟩
  have T := selection_valid_amended
  exact ⟨T.1 _ hs hvv, T.2.1 _ 1 true hs, T.2.2.1 _ hs, T.2.2.2.1 _ hs,
    T.2.2.2.2.1 (fun _ _ _ => none) _ hs, T.2.2.2.2.2.1 _ (sampleMsg 4) hs,
    T.2.2.2.2.2.2.1 (fun _ => 0) 80 20 _ hs,
    T.2.2.2.2.2.2.2 (fun _ => 0) 80 20 viewC7sel msgsC1 rfl (by decide)⟩

/-! ### C4: the conversation-list watermark -/

/-- A conversation whose watermark already stands at 2000. -/
def convC4 : Conversation := { sampleConv with last_message_timestamp := some 2000 }

/-- The loaded (empty-history) view of `convC4`. -/
def viewC4 : ConversationView :=
  { conversation := convC4
    messages := some []
    scroll_offset := 0
    has_more_messages := false
    selection := none
    visible_range := none
    last_message_preview := none }

/-- A store holding only `convC4`. -/
def stC4 : Store := { conversations := [convC4], messages := [], uuid_counter := 0 }

/-- The engine state around `viewC4`. -/
def appC4 : App :=
  { storage := stC4
    my_uuid := some "me"
    my_number := none
    conversations := [viewC4]
    selected := 0
    needs_image_preload := false
    pending_preload_paths := []
    now := 0 }

/-- A late echo: timestamp 1000, older than the standing watermark. -/
def msgC4 : Message := { sampleMsg 0 with timestamp := 1000 }

/-- **C4.** `App::add_message_to_conversation` overwrites the in-memory
`last_message_timestamp` with the appended message's timestamp
unconditionally: appending a message with timestamp 1000 onto a
conversation whose watermark is 2000 *decreases* the in-memory watermark
to 1000 — while `SqliteStorage::save_message` updates the persisted
watermark of the very same conversation with
`MAX(COALESCE(last_message_timestamp, 0), ts)`, keeping 2000.  The
claimed (and persisted) monotonic-max behaviour is contradicted by the
in-memory code. -/
theorem watermark_overwritten_not_max :
    viewC4.conversation.last_message_timestamp = some 2000 ∧
      ((appC4.add_message_to_conversation "c1" msgC4).conversations.map
        fun v => v.conversation.last_message_timestamp) = [some 1000] ∧
      ((stC4.save_message msgC4).conversations.map Conversation.last_message_timestamp)
        = [some 2000] := by
  refine ⟨by decide, by decide, by decide⟩

/-! ### C2: idempotent reconciliation of own-device echoes -/

/-- Number of stored rows with a given `(sender_uuid, timestamp)`
signal id. -/
def countSignalId (st : Store) (sender : String) (ts : Int) : Nat :=
  (st.messages.filter fun m => m.sender_uuid == sender && m.timestamp == ts).length

/-- No row with the signal id means the lookup misses. -/
theorem get_by_signal_id_eq_none {st : Store} {s : String} {t : Int}
    (h0 : countSignalId st s t = 0) : st.get_message_by_signal_id s t = none := by
  rw [Store.get_message_by_signal_id, List.find?_eq_none]
  intro m hm
  have := List.filter_eq_nil_iff.mp (List.eq_nil_of_length_eq_zero h0) m hm
  simpa using this

/-- A present row with the signal id means the lookup hits. -/
theorem get_by_signal_id_isSome {st : Store} {s : String} {t : Int}
    (h1 : 0 < countSignalId st s t) : (st.get_message_by_signal_id s t).isSome = true := by
  rw [Store.get_message_by_signal_id, List.find?_isSome]
  have hne : (st.messages.filter fun m => m.sender_uuid == s && m.timestamp == t) ≠ [] := by
    intro hnil
    rw [countSignalId, hnil] at h1
    exact absurd h1 (by decide)
  obtain ⟨m, hm⟩ := List.exists_mem_of_ne_nil _ hne
  have := List.mem_filter.mp hm
  exact ⟨m, this.1, this.2⟩

/-- `countSignalId` only reads the `messages` table. -/
theorem countSignalId_congr {st st' : Store} {s : String} {t : Int}
    (h : st.messages = st'.messages) : countSignalId st s t = countSignalId st' s t := by
  rw [countSignalId, countSignalId, h]

/-- Saving a message with the signal id into a store with no such row
leaves exactly one such row (also under `INSERT OR REPLACE` id-eviction). -/
theorem countSignalId_save {st : Store} {m : Message} {s : String} {t : Int}
    (hs : m.sender_uuid = s) (ht : m.timestamp = t) (h0 : countSignalId st s t = 0) :
    countSignalId (st.save_message m) s t = 1 := by
  rw [countSignalId, Store.save_message]
  simp only [List.filter_append, List.length_append]
  have h1 : ((st.messages.filter fun r => r.id ≠ m.id).filter
      fun r => r.sender_uuid == s && r.timestamp == t) = [] := by
    refine List.eq_nil_of_length_eq_zero (Nat.le_zero.mp ?_)
    calc ((st.messages.filter fun r => r.id ≠ m.id).filter
          fun r => r.sender_uuid == s && r.timestamp == t).length
        ≤ (st.messages.filter fun r => r.sender_uuid == s && r.timestamp == t).length :=
          ((List.filter_sublist st.messages).filter _).length_le
      _ = 0 := h0
  rw [h1]
  simp [hs, ht]

/-- The conversation-table operations never touch the `messages` table. -/
theorem get_or_create_direct_messages_eq (st : Store) (u : String) (n nm : Option String) :
    (st.get_or_create_direct_conversation u n nm).2.messages = st.messages := by
  rw [Store.get_or_create_direct_conversation]
  repeat' split
  all_goals rfl

/-- The group variant never touches the `messages` table either. -/
theorem get_or_create_group_messages_eq (st : Store) (g : String) (nm : Option String) :
    (st.get_or_create_group_conversation g nm).2.messages = st.messages := by
  rw [Store.get_or_create_group_conversation]
  repeat' split
  all_goals rfl

/-- `sort_conversations` does not touch the store. -/
theorem sort_conversations_storage (a : App) : a.sort_conversations.storage = a.storage := by
  rw [App.sort_conversations]
  repeat' split
  all_goals rfl

/-- `load_conversations` only reads the store. -/
theorem load_conversations_storage (a : App) : a.load_conversations.storage = a.storage := by
  rw [App.load_conversations]
  repeat' split
  all_goals rfl

/-- `add_message_to_conversation` only reads the store. -/
theorem add_message_to_conversation_storage (a : App) (cid : String) (m : Message) :
    (a.add_message_to_conversation cid m).storage = a.storage := by
  rw [App.add_message_to_conversation]
  repeat' split
  all_goals first
    | rw [sort_conversations_storage]
    | rw [load_conversations_storage]

/-- For a sync-only envelope (no data message, no edit, a sent echo with
non-empty text), `handle_incoming_message` reduces to the dedup check
followed by `ingest_sync_sent`. -/
theorem handle_incoming_sync_only (a : App) (e : Envelope) (s : String) (sent : SentMessage)
    (txt : String) (t : Int) (hsrc : e.source_uuid = some s) (hdm : e.data_message = none)
    (hem : e.edit_message = none) (hsm : e.sync_message = some ⟨some sent⟩)
    (hse : sent.edit_message = none) (htxt : sent.message = some txt) (hne : txt ≠ "")
    (hts : sent.timestamp = some t) :
    a.handle_incoming_message ⟨e⟩ =
      if (a.storage.get_message_by_signal_id s t).isSome then a
      else a.ingest_sync_sent s e.source_name (e.timestamp.getD a.now) sent txt := by
  obtain ⟨src, srcu, srcn, tse, dm, sm, em⟩ := e
  obtain ⟨dst, dstu, tsS, msgS, gi, atts, editS⟩ := sent
  have hsrc' : srcu = some s := hsrc
  have hdm' : dm = none := hdm
  have hem' : em = none := hem
  have hsm' : sm = some ⟨some ⟨dst, dstu, tsS, msgS, gi, atts, editS⟩⟩ := hsm
  have hse' : editS = none := hse
  have htxt' : msgS = some txt := htxt
  have hts' : tsS = some t := hts
  subst hsrc' hdm' hem' hsm' hse' htxt' hts'
  rw [App.handle_incoming_message]
  show App.handle_sync a s srcn (tse.getD a.now) ⟨some _⟩ = _
  rw [App.handle_sync]
  show (if txt = "" ∧ atts.isEmpty then a else _) = _
  rw [if_neg (by simp [hne])]
  rfl

/-- The resolved-echo tail stores exactly one row for the echo's signal
id when none existed. -/
theorem ingest_sync_resolved_count (a : App) (s : String) (nm : Option String) (tsf : Int)
    (sent : SentMessage) (txt : String) (t : Int) (cs : Conversation × Store)
    (hts : sent.timestamp = some t) (hmsgs : cs.2.messages = a.storage.messages)
    (h0 : countSignalId a.storage s t = 0) :
    countSignalId (a.ingest_sync_resolved s nm tsf sent txt cs).storage s t = 1 := by
  rw [App.ingest_sync_resolved]
  rw [add_message_to_conversation_storage]
  refine countSignalId_save rfl (by rw [hts]; rfl) ?_
  rw [countSignalId_congr (show (cs.2.fresh_uuid.2).messages = a.storage.messages from hmsgs)]
  exact h0

/-- Ingesting a resolvable sync echo into a store with no row for the
echo's signal id stores exactly one such row. -/
theorem ingest_sync_sent_count (a : App) (s : String) (nm : Option String) (tsf : Int)
    (sent : SentMessage) (txt : String) (t : Int) (hts : sent.timestamp = some t)
    (hdest : sent.group_info.isSome ∨ sent.destination_uuid.isSome ∨ sent.destination.isSome)
    (h0 : countSignalId a.storage s t = 0) :
    countSignalId (a.ingest_sync_sent s nm tsf sent txt).storage s t = 1 := by
  obtain ⟨dst, dstu, tsS, msgS, gi, atts, editS⟩ := sent
  rcases gi with _ | g
  · rcases dstu with _ | du
    · rcases dst with _ | d
      · rcases hdest with h | h | h <;> simp at h
      · show countSignalId
          (a.ingest_sync_resolved s nm tsf _ txt
            (a.storage.get_or_create_direct_conversation d (some d) none)).storage s t = 1
        exact ingest_sync_resolved_count a s nm tsf _ txt t _ hts
          (get_or_create_direct_messages_eq _ _ _ _) h0
    · show countSignalId
        (a.ingest_sync_resolved s nm tsf _ txt
          (a.storage.get_or_create_direct_conversation du dst none)).storage s t = 1
      exact ingest_sync_resolved_count a s nm tsf _ txt t _ hts
        (get_or_create_direct_messages_eq _ _ _ _) h0
  · show countSignalId
      (a.ingest_sync_resolved s nm tsf _ txt
        (a.storage.get_or_create_group_conversation g.group_id none)).storage s t = 1
    exact ingest_sync_resolved_count a s nm tsf _ txt t _ hts
      (get_or_create_group_messages_eq _ _ _) h0

/-- **C2.** Reconciling the same own-device echo (sync) event twice —
two inbound envelopes carrying the same sender uuid and the same sent
timestamp — yields exactly one stored message for that `(sender_uuid,
timestamp)` pair: the first pass stores one row, the second pass finds
the existing row through `get_message_by_signal_id` and discards the
event before constructing a `Message`. -/
theorem sync_echo_reconciliation_idempotent (a : App) (e : Envelope) (s : String)
    (sent : SentMessage) (txt : String) (t : Int) (hsrc : e.source_uuid = some s)
    (hdm : e.data_message = none) (hem : e.edit_message = none)
    (hsm : e.sync_message = some ⟨some sent⟩) (hse : sent.edit_message = none)
    (htxt : sent.message = some txt) (hne : txt ≠ "") (hts : sent.timestamp = some t)
    (hdest : sent.group_info.isSome ∨ sent.destination_uuid.isSome ∨ sent.destination.isSome)
    (h0 : countSignalId a.storage s t = 0) :
    countSignalId ((a.handle_incoming_message ⟨e⟩).handle_incoming_message ⟨e⟩).storage s t
      = 1 := by
  have hrw1 := handle_incoming_sync_only a e s sent txt t hsrc hdm hem hsm hse htxt hne hts
  rw [hrw1, if_neg (by rw [get_by_signal_id_eq_none h0]; simp)]
  have h1 : countSignalId
      (a.ingest_sync_sent s e.source_name (e.timestamp.getD a.now) sent txt).storage s t = 1 :=
    ingest_sync_sent_count a s _ _ sent txt t hts hdest h0
  have hrw2 := handle_incoming_sync_only
    (a.ingest_sync_sent s e.source_name (e.timestamp.getD a.now) sent txt) e s sent txt t
    hsrc hdm hem hsm hse htxt hne hts
  rw [hrw2, if_pos (get_by_signal_id_isSome (by omega))]
  exact h1

/-- A fresh engine over an empty store, logged in as `"me"`. -/
def appC2 : App :=
  { storage := { conversations := [], messages := [], uuid_counter := 0 }
    my_uuid := some "me"
    my_number := none
    conversations := []
    selected := 0
    needs_image_preload := false
    pending_preload_paths := []
    now := 5000 }

/-- A concrete sent echo: destination `"alice"`, timestamp 1000,
body `"hi"`. -/
def sentC2 : SentMessage :=
  { destination := some "alice-num"
    destination_uuid := some "alice"
    timestamp := some 1000
    message := some "hi"
    group_info := none
    attachments := []
    edit_message := none }

/-- The sync envelope wrapping `sentC2`, sourced from `"me"`. -/
def envC2 : Envelope :=
  { source := none
    source_uuid := some "me"
    source_name := none
    timestamp := some 1200
    data_message := none
    sync_message := some ⟨some sentC2⟩
    edit_message := none }

/-- Witness for **C2**: processing the concrete echo envelope twice over
the empty store leaves exactly one row for `("me", 1000)`. -/
theorem sync_echo_reconciliation_idempotent_witness :
    countSignalId appC2.storage "me" 1000 = 0 ∧
      countSignalId
        ((appC2.handle_incoming_message ⟨envC2⟩).handle_incoming_message ⟨envC2⟩).storage
        "me" 1000 = 1 :=
  ⟨by decide,
    sync_echo_reconciliation_idempotent appC2 envC2 "me" sentC2 "hi" 1000 rfl rfl rfl rfl rfl
      rfl (by decide) rfl (Or.inr (Or.inl rfl)) (by decide)⟩

end SignalTty
